import Mathlib

/-
Verification development for the Rust-Polarimeter control core
(src/backend/measurement.rs and the monitor loop of src/backend/mod.rs).

The Rust code is shallowly embedded as pure Lean functions.  Shared mutable
state (the mutex-guarded `BackendState`) becomes an explicit record that is
threaded through every operation.  Blocking interactions with the outside
world are captured by explicit oracles:
  * `a : Nat -> Bool` gives the outcome of the n-th serial acknowledgment
    read (`true` = the device answered with the line "1");
  * per-iteration environment records (`SEnv`, `DEnv`, `MonEnv`) supply the
    wall-clock timeout flag, the cancellation flag, frame availability and
    the classifier's output (`none` models a NoCircleFound/predict error,
    which the Rust code handles with `continue`).
Every operation additionally returns the ordered list of externally visible
events it produced: bytes written to the serial port (`Ev.port`), update
messages sent over the channel, and call markers (`Ev.rotate`, `Ev.rotateTo`,
`Ev.nudge`, `Ev.saveDyn`) recording that the corresponding motor/save routine
was invoked with the given argument.  String payloads of status/error update
messages are elided (only the message kind is kept); floating point payloads
(angle = steps/746 computed in f32, the elapsed time in f64) are modelled as
exact rationals.
-/

namespace Polarimeter

/-- Row appended by a precision static measurement (communication.rs
`StaticResult`); `angle` is `steps / 746` (f32 in the source, exact here). -/
structure StaticResult where
  index : Nat
  steps : Int
  angle : ℚ
deriving DecidableEq

/-- Row appended by the dynamic experiment loop (communication.rs
`DynamicResult`). -/
structure DynamicResult where
  index : Nat
  time : ℚ
  steps : Int
  angle : ℚ
deriving DecidableEq

/-- The four nudge operations of measurement.rs `MoveMode`. -/
inductive MoveMode where
  | stepForward
  | resetForward
  | stepBackward
  | resetBackward
deriving DecidableEq

/-- Externally visible events: serial bytes, update messages and call
markers, in the order the code produces them. -/
inductive Ev where
  | port (b : Nat)
  | rotate (n : Int)
  | rotateTo (n : Int)
  | nudge (m : MoveMode)
  | serialStatus (b : Bool)
  | cameraStatus (b : Bool)
  | currentSteps (s : Option Int)
  | staticRunning (b : Bool)
  | dynamicRunning (b : Bool)
  | staticResultsUpd (rs : List StaticResult)
  | dynamicResultsUpd (rs : List DynamicResult)
  | generalError
  | staticStatus
  | dynamicStatus
  | saveDyn
deriving DecidableEq

/-- The mutex-guarded shared state (mod.rs `BackendState`), restricted to the
fields the measurement code reads or writes.  Device handles and the fitted
model are tracked by presence booleans; `dynamicTime` is the presence of the
experiment clock; `stepSteps` stands for the already-rounded
`(dynamic_params.step_angle * 746.0).round() as i32` and `samplePoints` for
`dynamic_params.sample_points`. -/
structure BackendSt where
  fittedModel : Bool
  camera : Bool
  serial : Bool
  needReverse : Bool
  isAma : Bool
  currentSteps : Option Int
  staticResults : List StaticResult
  dynamicResults : List DynamicResult
  staticToken : Bool
  dynamicToken : Bool
  dynamicTime : Bool
  stepSteps : Int
  samplePoints : Int
deriving DecidableEq

/-- Threaded system state: the shared store plus the index of the next
serial acknowledgment to be consumed from the oracle. -/
structure Sys where
  st : BackendSt
  ack : Nat
deriving DecidableEq

/-- Forward-direction unit command bytes of `precision_rotate`. -/
def fwdCommands : List Nat := [62, 60, 58, 56, 64, 66, 68]

/-- Backward-direction unit command bytes of `precision_rotate`. -/
def bwdCommands : List Nat := [63, 61, 59, 57, 65, 67, 69]

/-- The fixed divisor ladder of `precision_rotate`. -/
def divisors : List Nat := [3730, 746, 373, 75, 37, 7, 1]

/-- Pure arithmetic core of the ladder: for each divisor take the quotient as
the unit-command count and carry the remainder on (measurement.rs lines
142-144).  Returns the per-level counts and the final remainder. -/
def ladderCounts : List Nat → Nat → List Nat × Nat
  | [], s => ([], s)
  | d :: ds, s =>
    let rest := ladderCounts ds (s % d)
    (s / d :: rest.1, rest.2)

/-- Divisor-weighted sum of unit-command counts. -/
def dotSum : List Nat → List Nat → Nat
  | c :: cs, d :: ds => c * d + dotSum cs ds
  | _, _ => 0

/-- One inner loop of `precision_rotate`: issue `n` identical unit commands
of one ladder level.  Each command: if the port handle is gone, emit a
disconnect status, invalidate `current_steps` and fail; otherwise send the
byte and wait for the acknowledgment (`cmd`); on a bad reply or timeout drop
the handle, invalidate `current_steps`, emit the disconnect status and fail;
on success accumulate `current_steps` by `d * mul` and emit it. -/
def runUnits (a : Nat → Bool) (byte : Nat) (d mul : Int) : Nat → Sys → Sys × List Ev × Bool
  | 0, sys => (sys, [], true)
  | n + 1, sys =>
    if sys.st.serial = false then
      ({sys with st := {sys.st with currentSteps := none}},
        [Ev.serialStatus false, Ev.currentSteps none], false)
    else if a sys.ack then
      let ns := sys.st.currentSteps.map (fun v => v + d * mul)
      let sys' : Sys := ⟨{sys.st with currentSteps := ns}, sys.ack + 1⟩
      let rest := runUnits a byte d mul n sys'
      (rest.1, Ev.port byte :: Ev.currentSteps ns :: rest.2.1, rest.2.2)
    else
      (⟨{sys.st with serial := false, currentSteps := none}, sys.ack + 1⟩,
        [Ev.port byte, Ev.serialStatus false, Ev.currentSteps none], false)

/-- The outer ladder loop of `precision_rotate` over parallel lists of
command bytes and divisors. -/
def runLadder (a : Nat → Bool) : List Nat → List Nat → Int → Nat → Sys → Sys × List Ev × Bool
  | byte :: cs, d :: ds, mul, s, sys =>
    let r := runUnits a byte (d : Int) mul (s / d) sys
    if r.2.2 then
      let rr := runLadder a cs ds mul (s % d) r.1
      (rr.1, r.2.1 ++ rr.2.1, rr.2.2)
    else r
  | _, _, _, _, sys => (sys, [], true)

/-- measurement.rs `precision_rotate`: negate under the reversal flag, pick
the forward or backward command set by the sign, then walk the divisor
ladder.  `Ev.rotate steps` marks the call with its original argument. -/
def precisionRotate (a : Nat → Bool) (sys : Sys) (steps : Int) : Sys × List Ev × Bool :=
  let s1 : Int := if sys.st.needReverse then -steps else steps
  let m1 : Int := if sys.st.needReverse then -1 else 1
  let r :=
    if 0 < s1 then runLadder a fwdCommands divisors m1 s1.toNat sys
    else runLadder a bwdCommands divisors (-m1) (-s1).toNat sys
  (r.1, Ev.rotate steps :: r.2.1, r.2.2)

/-- measurement.rs `precision_rotate_to`: requires a known `current_steps`,
then rotates by the difference. -/
def precisionRotateTo (a : Nat → Bool) (sys : Sys) (target : Int) : Sys × List Ev × Bool :=
  match sys.st.currentSteps with
  | some ss =>
    let r := precisionRotate a sys (target - ss)
    (r.1, Ev.rotateTo target :: r.2.1, r.2.2)
  | none => (sys, [Ev.rotateTo target], false)

/-- Nudge command byte, remapped under the reversal flag (measurement.rs
lines 228-244). -/
def nudgeByte (rev : Bool) (m : MoveMode) : Nat :=
  match rev, m with
  | false, .stepForward => 51
  | false, .stepBackward => 53
  | false, .resetForward => 114
  | false, .resetBackward => 55
  | true, .stepForward => 53
  | true, .stepBackward => 51
  | true, .resetForward => 55
  | true, .resetBackward => 114

/-- Signed step count credited to `current_steps` by a nudge; the table in
the source gives the same delta for both values of the reversal flag. -/
def nudgeDelta (m : MoveMode) : Int :=
  match m with
  | .stepForward => 6
  | .stepBackward => -6
  | .resetForward => -12
  | .resetBackward => 12

/-- measurement.rs `step_move`: one nudge command with the same failure
handling as a `precision_rotate` unit command. -/
def stepMove (a : Nat → Bool) (sys : Sys) (m : MoveMode) : Sys × List Ev × Bool :=
  if sys.st.serial = false then
    ({sys with st := {sys.st with currentSteps := none}},
      [Ev.nudge m, Ev.serialStatus false, Ev.currentSteps none], false)
  else
    let byte := nudgeByte sys.st.needReverse m
    if a sys.ack then
      let ns := sys.st.currentSteps.map (fun v => v + nudgeDelta m)
      (⟨{sys.st with currentSteps := ns}, sys.ack + 1⟩,
        [Ev.nudge m, Ev.port byte, Ev.currentSteps ns], true)
    else
      (⟨{sys.st with serial := false, currentSteps := none}, sys.ack + 1⟩,
        [Ev.nudge m, Ev.port byte, Ev.serialStatus false, Ev.currentSteps none], false)

/-! ### C1: the divisor ladder decomposes any step count exactly -/

theorem dotSum_ladderCounts_add (ds : List Nat) (s : Nat) :
    dotSum (ladderCounts ds s).1 ds + (ladderCounts ds s).2 = s := by
  induction ds generalizing s with
  | nil => simp [ladderCounts, dotSum]
  | cons d ds ih =>
    show s / d * d + dotSum (ladderCounts ds (s % d)).1 ds + (ladderCounts ds (s % d)).2 = s
    rw [Nat.add_assoc, ih (s % d), Nat.div_add_mod' s d]

theorem ladderCounts_divisors_rem (s : Nat) : (ladderCounts divisors s).2 = 0 := by
  simp [divisors, ladderCounts, Nat.mod_one]

/-- C1: for every non-negative integer step count `S`, the divisor-ladder
decomposition over `[3730, 746, 373, 75, 37, 7, 1]` (quotient = unit-command
count per level, remainder carried to the next level) yields counts whose
divisor-weighted sum is exactly `S`, with zero final remainder. -/
theorem ladder_decomposition_exact (S : Nat) :
    dotSum (ladderCounts divisors S).1 divisors = S ∧ (ladderCounts divisors S).2 = 0 := by
  have h := dotSum_ladderCounts_add divisors S
  have h0 := ladderCounts_divisors_rem S
  omega


/-! ### Motor driver lemmas -/

/-- Forget the `currentSteps` field, so that "all other fields unchanged"
can be stated as a single equation. -/
def eraseSteps (st : BackendSt) : BackendSt := {st with currentSteps := none}

theorem eraseSteps_serial {s t : BackendSt} (h : eraseSteps s = eraseSteps t) :
    s.serial = t.serial := by
  have hh := congrArg BackendSt.serial h
  simpa [eraseSteps] using hh

theorem eraseSteps_camera {s t : BackendSt} (h : eraseSteps s = eraseSteps t) :
    s.camera = t.camera := by
  have hh := congrArg BackendSt.camera h
  simpa [eraseSteps] using hh

theorem eraseSteps_staticResults {s t : BackendSt} (h : eraseSteps s = eraseSteps t) :
    s.staticResults = t.staticResults := by
  have hh := congrArg BackendSt.staticResults h
  simpa [eraseSteps] using hh

theorem eraseSteps_dynamicResults {s t : BackendSt} (h : eraseSteps s = eraseSteps t) :
    s.dynamicResults = t.dynamicResults := by
  have hh := congrArg BackendSt.dynamicResults h
  simpa [eraseSteps] using hh

theorem eraseSteps_stepSteps {s t : BackendSt} (h : eraseSteps s = eraseSteps t) :
    s.stepSteps = t.stepSteps := by
  have hh := congrArg BackendSt.stepSteps h
  simpa [eraseSteps] using hh

theorem eraseSteps_isAma {s t : BackendSt} (h : eraseSteps s = eraseSteps t) :
    s.isAma = t.isAma := by
  have hh := congrArg BackendSt.isAma h
  simpa [eraseSteps] using hh

theorem runUnits_allTrue (a : Nat → Bool) (h : ∀ i, a i = true) (byte : Nat) (d mul : Int) :
    ∀ (n : Nat) (sys : Sys), sys.st.serial = true →
      (runUnits a byte d mul n sys).2.2 = true ∧
      (runUnits a byte d mul n sys).1.st.currentSteps =
        sys.st.currentSteps.map (fun v => v + d * mul * (n : Int)) ∧
      eraseSteps (runUnits a byte d mul n sys).1.st = eraseSteps sys.st := by
  intro n
  induction n with
  | zero =>
    intro sys hs
    refine ⟨rfl, ?_, rfl⟩
    cases hc : sys.st.currentSteps <;> simp [runUnits, hc]
  | succ n ih =>
    intro sys hs
    have hsf : (sys.st.serial = false) = False := by simp [hs]
    have ha : a sys.ack = true := h sys.ack
    set sys' : Sys :=
      ⟨{sys.st with currentSteps := sys.st.currentSteps.map (fun v => v + d * mul)},
        sys.ack + 1⟩ with hsys'
    have hs' : sys'.st.serial = true := hs
    obtain ⟨hok, hcs, hrest⟩ := ih sys' hs'
    have hrw : runUnits a byte d mul (n + 1) sys =
        ((runUnits a byte d mul n sys').1,
          Ev.port byte :: Ev.currentSteps sys'.st.currentSteps ::
            (runUnits a byte d mul n sys').2.1,
          (runUnits a byte d mul n sys').2.2) := by
      simp only [runUnits, hsf, if_false, ha, if_true]
    rw [hrw]
    refine ⟨hok, ?_, hrest⟩
    rw [hcs]
    show (sys.st.currentSteps.map (fun v => v + d * mul)).map
        (fun v => v + d * mul * (n : Int)) = _
    rw [Option.map_map]
    cases sys.st.currentSteps with
    | none => rfl
    | some v =>
      simp only [Option.map_some', Function.comp, Option.some.injEq]
      push_cast
      ring

theorem runLadder_allTrue (a : Nat → Bool) (h : ∀ i, a i = true) :
    ∀ (cs ds : List Nat), cs.length = ds.length → ∀ (mul : Int) (s : Nat) (sys : Sys),
      sys.st.serial = true →
      (runLadder a cs ds mul s sys).2.2 = true ∧
      (runLadder a cs ds mul s sys).1.st.currentSteps =
        sys.st.currentSteps.map
          (fun v => v + mul * ((s : Int) - ((ladderCounts ds s).2 : Int))) ∧
      eraseSteps (runLadder a cs ds mul s sys).1.st = eraseSteps sys.st := by
  intro cs
  induction cs with
  | nil =>
    intro ds hlen mul s sys hs
    have hds : ds = [] := by
      cases ds with
      | nil => rfl
      | cons d ds => simp at hlen
    subst hds
    refine ⟨rfl, ?_, rfl⟩
    cases hc : sys.st.currentSteps <;> simp [runLadder, ladderCounts, hc]
  | cons byte cs ih =>
    intro ds hlen mul s sys hs
    cases ds with
    | nil => simp at hlen
    | cons d ds =>
      have hlen' : cs.length = ds.length := by simpa using hlen
      obtain ⟨hok1, hcs1, hrest1⟩ := runUnits_allTrue a h byte (d : Int) mul (s / d) sys hs
      have hser1 : (runUnits a byte (d : Int) mul (s / d) sys).1.st.serial = true := by
        rw [eraseSteps_serial hrest1]; exact hs
      have hrw : runLadder a (byte :: cs) (d :: ds) mul s sys =
          ((runLadder a cs ds mul (s % d) (runUnits a byte (d : Int) mul (s / d) sys).1).1,
            (runUnits a byte (d : Int) mul (s / d) sys).2.1 ++
              (runLadder a cs ds mul (s % d)
                (runUnits a byte (d : Int) mul (s / d) sys).1).2.1,
            (runLadder a cs ds mul (s % d)
              (runUnits a byte (d : Int) mul (s / d) sys).1).2.2) := by
        simp only [runLadder, hok1, if_true]
      obtain ⟨hok2, hcs2, hrest2⟩ :=
        ih ds hlen' mul (s % d) (runUnits a byte (d : Int) mul (s / d) sys).1 hser1
      rw [hrw]
      refine ⟨hok2, ?_, hrest2.trans hrest1⟩
      rw [hcs2, hcs1, Option.map_map]
      have hrem : (ladderCounts (d :: ds) s).2 = (ladderCounts ds (s % d)).2 := rfl
      rw [hrem]
      cases sys.st.currentSteps with
      | none => rfl
      | some v =>
        simp only [Option.map_some', Function.comp, Option.some.injEq]
        have hdm : (d : Int) * ((s / d : Nat) : Int) + ((s % d : Nat) : Int) = (s : Int) := by
          exact_mod_cast congrArg (fun x : Nat => (x : Int)) (Nat.div_add_mod s d)
        rw [← hdm]
        ring

theorem runLadder_div_allTrue (a : Nat → Bool) (h : ∀ i, a i = true) (cmds : List Nat)
    (hlen : cmds.length = divisors.length) (mul : Int) (s : Nat) (sys : Sys)
    (hs : sys.st.serial = true) :
    (runLadder a cmds divisors mul s sys).2.2 = true ∧
    (runLadder a cmds divisors mul s sys).1.st.currentSteps =
      sys.st.currentSteps.map (fun v => v + mul * (s : Int)) ∧
    eraseSteps (runLadder a cmds divisors mul s sys).1.st = eraseSteps sys.st := by
  obtain ⟨hok, hcs, hrest⟩ := runLadder_allTrue a h cmds divisors hlen mul s sys hs
  refine ⟨hok, ?_, hrest⟩
  rw [hcs]
  congr 1
  funext v
  rw [ladderCounts_divisors_rem]
  push_cast
  ring

theorem precisionRotate_allTrue (a : Nat → Bool) (h : ∀ i, a i = true)
    (sys : Sys) (steps : Int) (hs : sys.st.serial = true) :
    (precisionRotate a sys steps).2.2 = true ∧
    (precisionRotate a sys steps).1.st.currentSteps =
      sys.st.currentSteps.map (fun v => v + steps) ∧
    eraseSteps (precisionRotate a sys steps).1.st = eraseSteps sys.st := by
  by_cases hrev : sys.st.needReverse = true
  · by_cases hpos : (0 : Int) < -steps
    · obtain ⟨hok, hcs, hrest⟩ :=
        runLadder_div_allTrue a h fwdCommands rfl (-1) (-steps).toNat sys hs
      have hred : precisionRotate a sys steps =
          ((runLadder a fwdCommands divisors (-1) (-steps).toNat sys).1,
            Ev.rotate steps ::
              (runLadder a fwdCommands divisors (-1) (-steps).toNat sys).2.1,
            (runLadder a fwdCommands divisors (-1) (-steps).toNat sys).2.2) := by
        simp only [precisionRotate, hrev, if_true, if_pos hpos]
      rw [hred]
      refine ⟨hok, ?_, hrest⟩
      rw [hcs]
      congr 1
      funext v
      omega
    · obtain ⟨hok, hcs, hrest⟩ :=
        runLadder_div_allTrue a h bwdCommands rfl 1 steps.toNat sys hs
      have hred : precisionRotate a sys steps =
          ((runLadder a bwdCommands divisors 1 steps.toNat sys).1,
            Ev.rotate steps ::
              (runLadder a bwdCommands divisors 1 steps.toNat sys).2.1,
            (runLadder a bwdCommands divisors 1 steps.toNat sys).2.2) := by
        simp only [precisionRotate, hrev, if_true, if_neg hpos, neg_neg]
      rw [hred]
      refine ⟨hok, ?_, hrest⟩
      rw [hcs]
      congr 1
      funext v
      omega
  · have hrev' : sys.st.needReverse = false := by simpa using hrev
    by_cases hpos : (0 : Int) < steps
    · obtain ⟨hok, hcs, hrest⟩ :=
        runLadder_div_allTrue a h fwdCommands rfl 1 steps.toNat sys hs
      have hred : precisionRotate a sys steps =
          ((runLadder a fwdCommands divisors 1 steps.toNat sys).1,
            Ev.rotate steps ::
              (runLadder a fwdCommands divisors 1 steps.toNat sys).2.1,
            (runLadder a fwdCommands divisors 1 steps.toNat sys).2.2) := by
        simp only [precisionRotate, hrev', Bool.false_eq_true, if_false, if_pos hpos]
      rw [hred]
      refine ⟨hok, ?_, hrest⟩
      rw [hcs]
      congr 1
      funext v
      omega
    · obtain ⟨hok, hcs, hrest⟩ :=
        runLadder_div_allTrue a h bwdCommands rfl (-1) (-steps).toNat sys hs
      have hred : precisionRotate a sys steps =
          ((runLadder a bwdCommands divisors (-1) (-steps).toNat sys).1,
            Ev.rotate steps ::
              (runLadder a bwdCommands divisors (-1) (-steps).toNat sys).2.1,
            (runLadder a bwdCommands divisors (-1) (-steps).toNat sys).2.2) := by
        simp only [precisionRotate, hrev', Bool.false_eq_true, if_false, if_neg hpos]
      rw [hred]
      refine ⟨hok, ?_, hrest⟩
      rw [hcs]
      congr 1
      funext v
      omega

theorem stepMove_allTrue (a : Nat → Bool) (h : ∀ i, a i = true) (sys : Sys) (m : MoveMode)
    (hs : sys.st.serial = true) :
    (stepMove a sys m).2.2 = true ∧
    (stepMove a sys m).1.st.currentSteps =
      sys.st.currentSteps.map (fun v => v + nudgeDelta m) ∧
    eraseSteps (stepMove a sys m).1.st = eraseSteps sys.st := by
  have hsf : (sys.st.serial = false) = False := by simp [hs]
  have h1 : stepMove a sys m =
      (⟨{sys.st with currentSteps :=
          sys.st.currentSteps.map (fun v => v + nudgeDelta m)}, sys.ack + 1⟩,
        [Ev.nudge m, Ev.port (nudgeByte sys.st.needReverse m),
          Ev.currentSteps (sys.st.currentSteps.map (fun v => v + nudgeDelta m))], true) := by
    simp only [stepMove, hsf, if_false, h sys.ack, if_true]
  rw [h1]
  exact ⟨rfl, rfl, rfl⟩

theorem runUnits_true_serial (a : Nat → Bool) (byte : Nat) (d mul : Int) :
    ∀ (n : Nat) (sys : Sys), (runUnits a byte d mul n sys).2.2 = true →
      (runUnits a byte d mul n sys).1.st.serial = sys.st.serial := by
  intro n
  induction n with
  | zero => intro sys _; rfl
  | succ n ih =>
    intro sys hok
    by_cases hs : sys.st.serial = false
    · simp [runUnits, hs] at hok
    · have hsf : (sys.st.serial = false) = False := by simp [hs]
      by_cases ha : a sys.ack = true
      · have hrw : runUnits a byte d mul (n + 1) sys =
            ((runUnits a byte d mul n
                ⟨{sys.st with currentSteps :=
                  sys.st.currentSteps.map (fun v => v + d * mul)}, sys.ack + 1⟩).1,
              Ev.port byte :: Ev.currentSteps
                  (sys.st.currentSteps.map (fun v => v + d * mul)) ::
                (runUnits a byte d mul n
                  ⟨{sys.st with currentSteps :=
                    sys.st.currentSteps.map (fun v => v + d * mul)}, sys.ack + 1⟩).2.1,
              (runUnits a byte d mul n
                ⟨{sys.st with currentSteps :=
                  sys.st.currentSteps.map (fun v => v + d * mul)}, sys.ack + 1⟩).2.2) := by
          simp only [runUnits, hsf, if_false, ha, if_true]
        rw [hrw] at hok ⊢
        exact ih _ hok
      · have hab : a sys.ack = false := by simpa using ha
        simp [runUnits, hsf, hab] at hok

theorem runUnits_false (a : Nat → Bool) (byte : Nat) (d mul : Int) :
    ∀ (n : Nat) (sys : Sys), sys.st.serial = true →
      (runUnits a byte d mul n sys).2.2 = false →
      (runUnits a byte d mul n sys).1.st.serial = false ∧
      (runUnits a byte d mul n sys).1.st.currentSteps = none ∧
      Ev.serialStatus false ∈ (runUnits a byte d mul n sys).2.1 := by
  intro n
  induction n with
  | zero => intro sys _ hf; simp [runUnits] at hf
  | succ n ih =>
    intro sys hs hf
    have hsf : (sys.st.serial = false) = False := by simp [hs]
    by_cases ha : a sys.ack = true
    · have hrw : runUnits a byte d mul (n + 1) sys =
          ((runUnits a byte d mul n
              ⟨{sys.st with currentSteps :=
                sys.st.currentSteps.map (fun v => v + d * mul)}, sys.ack + 1⟩).1,
            Ev.port byte :: Ev.currentSteps
                (sys.st.currentSteps.map (fun v => v + d * mul)) ::
              (runUnits a byte d mul n
                ⟨{sys.st with currentSteps :=
                  sys.st.currentSteps.map (fun v => v + d * mul)}, sys.ack + 1⟩).2.1,
            (runUnits a byte d mul n
              ⟨{sys.st with currentSteps :=
                sys.st.currentSteps.map (fun v => v + d * mul)}, sys.ack + 1⟩).2.2) := by
        simp only [runUnits, hsf, if_false, ha, if_true]
      rw [hrw] at hf ⊢
      obtain ⟨h1, h2, h3⟩ :=
        ih ⟨{sys.st with currentSteps :=
          sys.st.currentSteps.map (fun v => v + d * mul)}, sys.ack + 1⟩ hs hf
      exact ⟨h1, h2, by simp [h3]⟩
    · have hab : a sys.ack = false := by simpa using ha
      have hrw : runUnits a byte d mul (n + 1) sys =
          (⟨{sys.st with serial := false, currentSteps := none}, sys.ack + 1⟩,
            [Ev.port byte, Ev.serialStatus false, Ev.currentSteps none], false) := by
        simp only [runUnits, hsf, if_false, hab, Bool.false_eq_true]
      rw [hrw]
      exact ⟨rfl, rfl, by simp⟩

theorem runLadder_false (a : Nat → Bool) :
    ∀ (cs ds : List Nat) (mul : Int) (s : Nat) (sys : Sys), sys.st.serial = true →
      (runLadder a cs ds mul s sys).2.2 = false →
      (runLadder a cs ds mul s sys).1.st.serial = false ∧
      (runLadder a cs ds mul s sys).1.st.currentSteps = none ∧
      Ev.serialStatus false ∈ (runLadder a cs ds mul s sys).2.1 := by
  intro cs
  induction cs with
  | nil => intro ds mul s sys _ hf; simp [runLadder] at hf
  | cons byte cs ih =>
    intro ds mul s sys hs hf
    cases ds with
    | nil => simp [runLadder] at hf
    | cons d ds =>
      by_cases hok1 : (runUnits a byte (d : Int) mul (s / d) sys).2.2 = true
      · have hser1 : (runUnits a byte (d : Int) mul (s / d) sys).1.st.serial = true := by
          rw [runUnits_true_serial a byte (d : Int) mul (s / d) sys hok1]; exact hs
        have hrw : runLadder a (byte :: cs) (d :: ds) mul s sys =
            ((runLadder a cs ds mul (s % d) (runUnits a byte (d : Int) mul (s / d) sys).1).1,
              (runUnits a byte (d : Int) mul (s / d) sys).2.1 ++
                (runLadder a cs ds mul (s % d)
                  (runUnits a byte (d : Int) mul (s / d) sys).1).2.1,
              (runLadder a cs ds mul (s % d)
                (runUnits a byte (d : Int) mul (s / d) sys).1).2.2) := by
          simp only [runLadder, hok1, if_true]
        rw [hrw] at hf ⊢
        obtain ⟨h1, h2, h3⟩ := ih ds mul (s % d) _ hser1 hf
        exact ⟨h1, h2, by simp [h3]⟩
      · have hf1 : (runUnits a byte (d : Int) mul (s / d) sys).2.2 = false := by
          simpa using hok1
        have hrw : runLadder a (byte :: cs) (d :: ds) mul s sys =
            runUnits a byte (d : Int) mul (s / d) sys := by
          simp only [runLadder, hf1, Bool.false_eq_true, if_false]
        rw [hrw]
        exact runUnits_false a byte (d : Int) mul (s / d) sys hs hf1

theorem runUnits_cmd_fail (a : Nat → Bool) (byte : Nat) (d mul : Int) (n : Nat) (sys : Sys)
    (hs : sys.st.serial = true) (ha : a sys.ack = false) (hn : 0 < n) :
    (runUnits a byte d mul n sys).2.2 = false ∧
    (runUnits a byte d mul n sys).1.st.serial = false ∧
    (runUnits a byte d mul n sys).1.st.currentSteps = none ∧
    Ev.serialStatus false ∈ (runUnits a byte d mul n sys).2.1 := by
  cases n with
  | zero => exact absurd hn (by simp)
  | succ n =>
    have hsf : (sys.st.serial = false) = False := by simp [hs]
    have hrw : runUnits a byte d mul (n + 1) sys =
        (⟨{sys.st with serial := false, currentSteps := none}, sys.ack + 1⟩,
          [Ev.port byte, Ev.serialStatus false, Ev.currentSteps none], false) := by
      simp only [runUnits, hsf, if_false, ha, Bool.false_eq_true]
    rw [hrw]
    exact ⟨rfl, rfl, rfl, by simp⟩

theorem stepMove_false (a : Nat → Bool) (sys : Sys) (m : MoveMode)
    (hs : sys.st.serial = true) (ha : a sys.ack = false) :
    (stepMove a sys m).2.2 = false ∧
    (stepMove a sys m).1.st.serial = false ∧
    (stepMove a sys m).1.st.currentSteps = none ∧
    Ev.serialStatus false ∈ (stepMove a sys m).2.1 := by
  have hsf : (sys.st.serial = false) = False := by simp [hs]
  have hrw : stepMove a sys m =
      (⟨{sys.st with serial := false, currentSteps := none}, sys.ack + 1⟩,
        [Ev.nudge m, Ev.port (nudgeByte sys.st.needReverse m),
          Ev.serialStatus false, Ev.currentSteps none], false) := by
    simp only [stepMove, hsf, if_false, ha, Bool.false_eq_true]
  rw [hrw]
  exact ⟨rfl, rfl, rfl, by simp⟩

theorem precisionRotate_false (a : Nat → Bool) (sys : Sys) (steps : Int)
    (hs : sys.st.serial = true) (hf : (precisionRotate a sys steps).2.2 = false) :
    (precisionRotate a sys steps).1.st.serial = false ∧
    (precisionRotate a sys steps).1.st.currentSteps = none ∧
    Ev.serialStatus false ∈ (precisionRotate a sys steps).2.1 := by
  simp only [precisionRotate] at hf ⊢
  by_cases hpos : (0 : Int) < (if sys.st.needReverse = true then -steps else steps)
  · rw [if_pos hpos] at hf ⊢
    obtain ⟨h1, h2, h3⟩ := runLadder_false a fwdCommands divisors _ _ sys hs hf
    exact ⟨h1, h2, by simp [h3]⟩
  · rw [if_neg hpos] at hf ⊢
    obtain ⟨h1, h2, h3⟩ := runLadder_false a bwdCommands divisors _ _ sys hs hf
    exact ⟨h1, h2, by simp [h3]⟩

/-! ### C2: a failed motor unit command drops the connection, invalidates
StepPosition, emits a disconnect update and aborts with an error -/

/-- C2: for every motor unit command issued by `precision_rotate` (through
its inner unit-command loop `runUnits`) or by `step_move`, if that command's
acknowledgment fails (reply other than "1" or a timeout, modelled by the
oracle returning `false`), the serial handle is set to `None`,
`current_steps` is set to `None`, a serial-disconnect update is emitted, and
the operation returns an error (`false`); moreover whenever a whole
`precision_rotate` call entered with a live handle aborts with an error, the
final state has the handle dropped, `current_steps` invalidated and the
disconnect update emitted. -/
theorem motor_command_failure_invalidates (a : Nat → Bool) :
    (∀ (byte : Nat) (d mul : Int) (n : Nat) (sys : Sys),
        sys.st.serial = true → a sys.ack = false → 0 < n →
        (runUnits a byte d mul n sys).2.2 = false ∧
        (runUnits a byte d mul n sys).1.st.serial = false ∧
        (runUnits a byte d mul n sys).1.st.currentSteps = none ∧
        Ev.serialStatus false ∈ (runUnits a byte d mul n sys).2.1) ∧
    (∀ (sys : Sys) (m : MoveMode),
        sys.st.serial = true → a sys.ack = false →
        (stepMove a sys m).2.2 = false ∧
        (stepMove a sys m).1.st.serial = false ∧
        (stepMove a sys m).1.st.currentSteps = none ∧
        Ev.serialStatus false ∈ (stepMove a sys m).2.1) ∧
    (∀ (sys : Sys) (steps : Int),
        sys.st.serial = true → (precisionRotate a sys steps).2.2 = false →
        (precisionRotate a sys steps).1.st.serial = false ∧
        (precisionRotate a sys steps).1.st.currentSteps = none ∧
        Ev.serialStatus false ∈ (precisionRotate a sys steps).2.1) :=
  ⟨fun byte d mul n sys hs ha hn => runUnits_cmd_fail a byte d mul n sys hs ha hn,
   fun sys m hs ha => stepMove_false a sys m hs ha,
   fun sys steps hs hf => precisionRotate_false a sys steps hs hf⟩

/-- Concrete backend state used by the witnesses: all devices and the model
present, position calibrated at 0, no tasks running. -/
def sysW : Sys := ⟨⟨true, true, true, false, false, some 0, [], [], false, false, true, 0, 12⟩, 0⟩

theorem motor_command_failure_invalidates_witness :
    (runUnits (fun _ => false) 62 3730 1 1 sysW).2.2 = false ∧
    (runUnits (fun _ => false) 62 3730 1 1 sysW).1.st.serial = false ∧
    (runUnits (fun _ => false) 62 3730 1 1 sysW).1.st.currentSteps = none ∧
    (stepMove (fun _ => false) sysW MoveMode.stepForward).2.2 = false ∧
    (stepMove (fun _ => false) sysW MoveMode.stepForward).1.st.currentSteps = none ∧
    (precisionRotate (fun _ => false) sysW 7).1.st.serial = false ∧
    (precisionRotate (fun _ => false) sysW 7).1.st.currentSteps = none ∧
    Ev.serialStatus false ∈ (precisionRotate (fun _ => false) sysW 7).2.1 := by
  obtain ⟨hA, hB, hC⟩ := motor_command_failure_invalidates (fun _ => false)
  obtain ⟨a1, a2, a3, _⟩ := hA 62 3730 1 1 sysW rfl rfl (by decide)
  obtain ⟨b1, _, b3, _⟩ := hB sysW MoveMode.stepForward rfl rfl
  obtain ⟨c1, c2, c3⟩ := hC sysW 7 rfl (by decide)
  exact ⟨a1, a2, a3, b1, b3, c1, c2, c3⟩

/-! ### C3: a rotation followed by its inverse restores StepPosition -/

/-- C3: for every integer `N` and every value of the reversal flag (left
arbitrary inside `sys`), calling `precision_rotate N` and then
`precision_rotate (-N)` with every unit command acknowledged restores
`current_steps` exactly to its initial value (and both calls succeed). -/
theorem rotate_relative_inverse (a : Nat → Bool) (h : ∀ i, a i = true)
    (sys : Sys) (N : Int) (hs : sys.st.serial = true) :
    (precisionRotate a (precisionRotate a sys N).1 (-N)).1.st.currentSteps
      = sys.st.currentSteps ∧
    (precisionRotate a sys N).2.2 = true ∧
    (precisionRotate a (precisionRotate a sys N).1 (-N)).2.2 = true := by
  obtain ⟨hok1, hcs1, hrest1⟩ := precisionRotate_allTrue a h sys N hs
  have hs1 : (precisionRotate a sys N).1.st.serial = true := by
    rw [eraseSteps_serial hrest1]; exact hs
  obtain ⟨hok2, hcs2, hrest2⟩ :=
    precisionRotate_allTrue a h (precisionRotate a sys N).1 (-N) hs1
  refine ⟨?_, hok1, hok2⟩
  rw [hcs2, hcs1, Option.map_map]
  cases sys.st.currentSteps <;> simp

theorem rotate_relative_inverse_witness :
    (precisionRotate (fun _ => true)
        (precisionRotate (fun _ => true) sysW 746).1 (-746)).1.st.currentSteps
      = sysW.st.currentSteps :=
  (rotate_relative_inverse (fun _ => true) (fun _ => rfl) sysW 746 rfl).1

/-! ### Bracket-search (static measurement) state machine -/

/-- Per-iteration environment of the bracket-search loop: the combined
timeout/cancellation check at the loop head, availability of a camera frame,
and the classifier result (`none` = NoCircleFound, handled by `continue`). -/
structure SEnv where
  timedOut : Bool
  frameOk : Bool
  pred : Option Nat
deriving DecidableEq

/-- Local state of one bracket-search cycle: the 5-slot prediction window
(front = oldest), the reference phase `first` (2 = unknown), the one-shot
`first_first` marker, and the two recorded boundaries. -/
structure LoopSt where
  preds : List Nat
  first : Nat
  firstFirst : Nat
  result1 : Option Int
  result2 : Option Int
deriving DecidableEq

/-- The freshly initialised 5-slot window of unknowns. -/
def window2 : List Nat := [2, 2, 2, 2, 2]

/-- Loop state at the start of a bracket-search cycle. -/
def cycleInit : LoopSt := ⟨window2, 2, 2, none, none⟩

/-- Number of labels `1` in the window. -/
def count1 (l : List Nat) : Nat := l.count 1

/-- Number of labels `0` in the window. -/
def count0 (l : List Nat) : Nat := l.count 0

/-- Result of one iteration of the bracket-search loop body:
continue, break out (both boundaries found), return with an error, or a
panicking `unwrap` of an absent `current_steps`. -/
inductive StepRes where
  | next (ls : LoopSt) (sys : Sys) (evs : List Ev)
  | brk (ls : LoopSt) (sys : Sys) (evs : List Ev)
  | err (sys : Sys) (evs : List Ev)
  | fatal (sys : Sys) (evs : List Ev)
deriving DecidableEq

/-- Common tail of the loop body (measurement.rs lines 437-450): emit the
current position unless this is a zero-calibration run, break if requested,
otherwise adopt a uniform window slice (the clone taken before the branch)
as the new reference phase. -/
def stepFinish (fz doBrk : Bool) (slice : List Nat) (ls : LoopSt) (sys : Sys)
    (evs : List Ev) : StepRes :=
  let evs := if fz then evs else evs ++ [Ev.currentSteps sys.st.currentSteps]
  if doBrk then .brk ls sys evs
  else
    let f := if slice = [0, 0, 0, 0, 0] then 0
      else if slice = [1, 1, 1, 1, 1] then 1 else ls.first
    .next {ls with first := f} sys evs

/-- The four-way branch of the loop body (measurement.rs lines 403-436):
consensus flip towards 1 while `first = 0` (record a boundary after a
reset-backward nudge, with a -700 offset rotation after the first one),
the symmetric flip towards 0 while `first = 1`, otherwise a single forward
or backward nudge. -/
def stepBranch (a : Nat → Bool) (fz : Bool) (w : List Nat) (f1 ff : Nat)
    (r1 r2 : Option Int) (sys : Sys) (evs : List Ev) : StepRes :=
  if 3 ≤ count1 w ∧ f1 = 0 then
    let mr := stepMove a sys .resetBackward
    if mr.2.2 = false then .err mr.1 (evs ++ mr.2.1)
    else
      match r1 with
      | none =>
        match mr.1.st.currentSteps with
        | none => .fatal mr.1 (evs ++ mr.2.1)
        | some v =>
          let rr := precisionRotate a mr.1 (-700)
          if rr.2.2 = false then .err rr.1 (evs ++ mr.2.1 ++ rr.2.1)
          else stepFinish fz false w ⟨window2, 2, ff, some v, none⟩ rr.1
            (evs ++ mr.2.1 ++ rr.2.1)
      | some _ =>
        match mr.1.st.currentSteps with
        | none => .fatal mr.1 (evs ++ mr.2.1)
        | some v => stepFinish fz true w ⟨w, f1, ff, r1, some v⟩ mr.1 (evs ++ mr.2.1)
  else if 3 ≤ count0 w ∧ f1 = 1 then
    let mr := stepMove a sys .resetForward
    if mr.2.2 = false then .err mr.1 (evs ++ mr.2.1)
    else
      match r1 with
      | none =>
        match mr.1.st.currentSteps with
        | none => .fatal mr.1 (evs ++ mr.2.1)
        | some v =>
          let rr := precisionRotate a mr.1 700
          if rr.2.2 = false then .err rr.1 (evs ++ mr.2.1 ++ rr.2.1)
          else stepFinish fz false w ⟨window2, 2, ff, some v, none⟩ rr.1
            (evs ++ mr.2.1 ++ rr.2.1)
      | some _ =>
        match mr.1.st.currentSteps with
        | none => .fatal mr.1 (evs ++ mr.2.1)
        | some v => stepFinish fz true w ⟨w, f1, ff, r1, some v⟩ mr.1 (evs ++ mr.2.1)
  else if f1 = 1 then
    let mr := stepMove a sys .stepForward
    if mr.2.2 = false then .err mr.1 (evs ++ mr.2.1)
    else stepFinish fz false w ⟨w, f1, ff, r1, r2⟩ mr.1 (evs ++ mr.2.1)
  else
    let mr := stepMove a sys .stepBackward
    if mr.2.2 = false then .err mr.1 (evs ++ mr.2.1)
    else stepFinish fz false w ⟨w, f1, ff, r1, r2⟩ mr.1 (evs ++ mr.2.1)

/-- One full iteration of the bracket-search loop body (measurement.rs
lines 329-451): timeout/cancel check, camera and frame checks, classify
(`continue` on failure), XOR with the orientation flag, push into the
window, adopt the first phase, on the very first classification of the
cycle apply the one-degree offset rotation (`first_first`, lines 393-400),
then branch. -/
def stepBody (a : Nat → Bool) (fz isama : Bool) (e : SEnv) (ls : LoopSt) (sys : Sys) :
    StepRes :=
  if e.timedOut then .err sys [Ev.staticStatus]
  else if sys.st.camera = false then .err sys [Ev.cameraStatus false]
  else if e.frameOk = false then
    .err {sys with st := {sys.st with camera := false}} [Ev.cameraStatus false]
  else
    match e.pred with
    | none => .next ls sys []
    | some p =>
      let pr := p ^^^ (if isama then 1 else 0)
      let w := ls.preds.tail ++ [pr]
      let f1 := if ls.first = 2 then pr else ls.first
      if ls.firstFirst = 2 then
        let rr := if pr = 0 then precisionRotate a sys 746 else precisionRotate a sys (-746)
        if rr.2.2 = false then .err rr.1 rr.2.1
        else stepBranch a fz w f1 pr ls.result1 ls.result2 rr.1 rr.2.1
      else stepBranch a fz w f1 ls.firstFirst ls.result1 ls.result2 sys []

/-- Iterate `stepBody` along an environment trace, stopping at the first
non-`next` outcome and returning the last loop state before it (used to
state reachability). -/
def loopSteps (a : Nat → Bool) (fz isama : Bool) : List SEnv → LoopSt × Sys → LoopSt × Sys
  | [], p => p
  | e :: es, p =>
    match stepBody a fz isama e p.1 p.2 with
    | .next ls sys _ => loopSteps a fz isama es (ls, sys)
    | _ => p

/-- Window invariant of the bracket-search loop: while the reference phase is
unknown the window is still all-unknowns, and while it is 0 (resp. 1) at most
two opposite labels have accumulated (a third triggers the boundary branch
in the same iteration it arrives). -/
def Jinv (ls : LoopSt) : Prop :=
  (ls.first = 2 → ls.preds = window2) ∧
  (ls.first = 0 → count1 ls.preds ≤ 2) ∧
  (ls.first = 1 → count0 ls.preds ≤ 2)

theorem count_tail_append_le (l : List Nat) (x : Nat) :
    count1 (l.tail ++ [x]) ≤ count1 l + 1 ∧ count0 (l.tail ++ [x]) ≤ count0 l + 1 := by
  have h1 : l.tail.count 1 ≤ l.count 1 := (List.tail_sublist l).count_le 1
  have h0 : l.tail.count 0 ≤ l.count 0 := (List.tail_sublist l).count_le 0
  have hx1 : ([x] : List Nat).count 1 ≤ 1 := by
    by_cases hx : x = 1 <;> simp [List.count_cons, hx]
  have hx0 : ([x] : List Nat).count 0 ≤ 1 := by
    by_cases hx : x = 0 <;> simp [List.count_cons, hx]
  constructor <;> simp only [count1, count0, List.count_append] <;> omega

theorem stepFinish_next (fz : Bool) (slice : List Nat) (ls : LoopSt) (sys : Sys)
    (evs : List Ev) (ls' : LoopSt) (sys' : Sys) (l : List Ev)
    (h : stepFinish fz false slice ls sys evs = .next ls' sys' l) :
    ls'.preds = ls.preds ∧ ls'.firstFirst = ls.firstFirst ∧ ls'.result1 = ls.result1 ∧
    ls'.result2 = ls.result2 ∧
    ls'.first = (if slice = [0, 0, 0, 0, 0] then 0
      else if slice = [1, 1, 1, 1, 1] then 1 else ls.first) ∧
    sys' = sys ∧
    l = (if fz then evs else evs ++ [Ev.currentSteps sys.st.currentSteps]) := by
  simp only [stepFinish, Bool.false_eq_true, if_false] at h
  cases h
  exact ⟨rfl, rfl, rfl, rfl, rfl, rfl, rfl⟩

theorem Jinv_stepBranch (a : Nat → Bool) (fz : Bool) (w : List Nat) (f1 ff : Nat)
    (r1 r2 : Option Int) (sys : Sys) (evs : List Ev)
    (hw2 : f1 = 2 → w = window2) :
    ∀ (ls' : LoopSt) (sys' : Sys) (l : List Ev),
      stepBranch a fz w f1 ff r1 r2 sys evs = .next ls' sys' l → Jinv ls' := by
  intro ls' sys' l h
  have hnudge : ∀ (mr1 : Sys) (evs1 : List Ev),
      stepFinish fz false w ⟨w, f1, ff, r1, r2⟩ mr1 evs1 = .next ls' sys' l →
      (¬(3 ≤ count1 w ∧ f1 = 0)) → (¬(3 ≤ count0 w ∧ f1 = 1)) → Jinv ls' := by
    intro mr1 evs1 hfin hA hB
    have hsf := stepFinish_next fz w ⟨w, f1, ff, r1, r2⟩ mr1 evs1 ls' sys' l hfin
    have hp : ls'.preds = w := hsf.1
    have hfst : ls'.first =
        (if w = [0, 0, 0, 0, 0] then 0 else if w = [1, 1, 1, 1, 1] then 1 else f1) :=
      hsf.2.2.2.2.1
    refine ⟨?_, ?_, ?_⟩ <;> intro hf <;> rw [hfst] at hf <;> rw [hp]
    · by_cases h0 : w = [0, 0, 0, 0, 0]
      · rw [if_pos h0] at hf; exact absurd hf (by decide)
      · by_cases h1 : w = [1, 1, 1, 1, 1]
        · rw [if_neg h0, if_pos h1] at hf; exact absurd hf (by decide)
        · rw [if_neg h0, if_neg h1] at hf; exact hw2 hf
    · by_cases h0 : w = [0, 0, 0, 0, 0]
      · rw [h0]; decide
      · by_cases h1 : w = [1, 1, 1, 1, 1]
        · rw [if_neg h0, if_pos h1] at hf; exact absurd hf (by decide)
        · rw [if_neg h0, if_neg h1] at hf
          have hcon : ¬(3 ≤ count1 w) := fun hc => hA ⟨hc, hf⟩
          omega
    · by_cases h0 : w = [0, 0, 0, 0, 0]
      · rw [if_pos h0] at hf; exact absurd hf (by decide)
      · by_cases h1 : w = [1, 1, 1, 1, 1]
        · rw [h1]; decide
        · rw [if_neg h0, if_neg h1] at hf
          have hcon : ¬(3 ≤ count0 w) := fun hc => hB ⟨hc, hf⟩
          omega
  have hrecord : ∀ (v : Int) (rr1 : Sys) (evs1 : List Ev),
      stepFinish fz false w ⟨window2, 2, ff, some v, none⟩ rr1 evs1 = .next ls' sys' l →
      Jinv ls' := by
    intro v rr1 evs1 hfin
    have hsf := stepFinish_next fz w ⟨window2, 2, ff, some v, none⟩ rr1 evs1 ls' sys' l hfin
    have hp : ls'.preds = window2 := hsf.1
    refine ⟨fun _ => hp, ?_, ?_⟩ <;> intro hf <;> rw [hp]
    · decide
    · decide
  unfold stepBranch at h
  simp only [] at h
  split at h
  case isTrue hA =>
    split at h
    · simp at h
    · split at h
      · split at h
        · simp at h
        · split at h
          · simp at h
          · exact hrecord _ _ _ h
      · split at h
        · simp at h
        · simp [stepFinish] at h
  case isFalse hA =>
    split at h
    case isTrue hB =>
      split at h
      · simp at h
      · split at h
        · split at h
          · simp at h
          · split at h
            · simp at h
            · exact hrecord _ _ _ h
        · split at h
          · simp at h
          · simp [stepFinish] at h
    case isFalse hB =>
      split at h
      · split at h
        · simp at h
        · exact hnudge _ _ h hA hB
      · split at h
        · simp at h
        · exact hnudge _ _ h hA hB

theorem Jinv_stepBody (a : Nat → Bool) (fz isama : Bool) (e : SEnv) (ls : LoopSt) (sys : Sys)
    (hJ : Jinv ls) :
    ∀ (ls' : LoopSt) (sys' : Sys) (l : List Ev),
      stepBody a fz isama e ls sys = .next ls' sys' l → Jinv ls' := by
  intro ls' sys' l h
  unfold stepBody at h
  split at h
  · simp at h
  · split at h
    · simp at h
    · split at h
      · simp at h
      · split at h
        · cases h
          exact hJ
        · simp only [] at h
          rename_i p hpred
          have hw2 : (if ls.first = 2 then p ^^^ (if isama then 1 else 0) else ls.first) = 2 →
              ls.preds.tail ++ [p ^^^ (if isama then 1 else 0)] = window2 := by
            intro hf
            by_cases h2 : ls.first = 2
            · rw [hJ.1 h2]
              rw [if_pos h2] at hf
              rw [hf]
              rfl
            · rw [if_neg h2] at hf; exact absurd hf h2
          split at h
          case isTrue hff =>
            by_cases hp0 : p ^^^ (if isama then 1 else 0) = 0
            · rw [if_pos hp0] at h
              split at h
              · simp at h
              · exact Jinv_stepBranch a fz _ _ _ _ _ _ _ hw2 ls' sys' l h
            · rw [if_neg hp0] at h
              split at h
              · simp at h
              · exact Jinv_stepBranch a fz _ _ _ _ _ _ _ hw2 ls' sys' l h
          case isFalse hff =>
            exact Jinv_stepBranch a fz _ _ _ _ _ _ _ hw2 ls' sys' l h

theorem Jinv_loopSteps (a : Nat → Bool) (fz isama : Bool) :
    ∀ (envs : List SEnv) (p : LoopSt × Sys), Jinv p.1 →
      Jinv (loopSteps a fz isama envs p).1 := by
  intro envs
  induction envs with
  | nil => intro p hp; exact hp
  | cons e es ih =>
    intro p hp
    rcases hstep : stepBody a fz isama e p.1 p.2 with
      ⟨ls2, sys2, l2⟩ | ⟨ls2, sys2, l2⟩ | ⟨sys2, l2⟩ | ⟨sys2, l2⟩
    · have hrw : loopSteps a fz isama (e :: es) p = loopSteps a fz isama es (ls2, sys2) := by
        simp only [loopSteps, hstep]
      rw [hrw]
      exact ih _ (Jinv_stepBody a fz isama e p.1 p.2 hp ls2 sys2 l2 hstep)
    · have hrw : loopSteps a fz isama (e :: es) p = p := by
        simp only [loopSteps, hstep]
      rw [hrw]; exact hp
    · have hrw : loopSteps a fz isama (e :: es) p = p := by
        simp only [loopSteps, hstep]
      rw [hrw]; exact hp
    · have hrw : loopSteps a fz isama (e :: es) p = p := by
        simp only [loopSteps, hstep]
      rw [hrw]; exact hp

theorem stepBranch_brk (a : Nat → Bool) (fz : Bool) (w : List Nat) (f1 ff : Nat)
    (r1 r2 : Option Int) (sys : Sys) (evs : List Ev) :
    ∀ (ls' : LoopSt) (sys' : Sys) (l : List Ev),
      stepBranch a fz w f1 ff r1 r2 sys evs = .brk ls' sys' l →
      r1.isSome ∧ ls'.result2.isSome := by
  intro ls' sys' l h
  unfold stepBranch at h
  simp only [] at h
  split at h
  · split at h
    · simp at h
    · split at h
      · split at h
        · simp at h
        · split at h
          · simp at h
          · simp [stepFinish] at h
      · split at h
        · simp at h
        · simp only [stepFinish, if_true] at h
          split at h <;> cases h <;> exact ⟨rfl, rfl⟩
  · split at h
    · split at h
      · simp at h
      · split at h
        · split at h
          · simp at h
          · split at h
            · simp at h
            · simp [stepFinish] at h
        · split at h
          · simp at h
          · simp only [stepFinish, if_true] at h
            split at h <;> cases h <;> exact ⟨rfl, rfl⟩
    · split at h
      · split at h
        · simp at h
        · simp [stepFinish] at h
      · split at h
        · simp at h
        · simp [stepFinish] at h

theorem rotate_marker_mem (a : Nat → Bool) (sys : Sys) (n : Int) :
    Ev.rotate n ∈ (precisionRotate a sys n).2.1 := by
  unfold precisionRotate
  simp

theorem stepBranch_record (a : Nat → Bool) (fz : Bool) (w : List Nat) (f1 ff : Nat)
    (r2 : Option Int) (sys : Sys) (evs : List Ev)
    (hb1 : f1 = 0 → count1 w ≤ 3) (hb0 : f1 = 1 → count0 w ≤ 3) :
    ∀ (ls' : LoopSt) (sys' : Sys) (l : List Ev),
      stepBranch a fz w f1 ff none r2 sys evs = .next ls' sys' l →
      ls'.result1.isSome →
      ls'.first = 2 ∧ ls'.preds = window2 ∧
      ((3 ≤ count1 w ∧ f1 = 0 ∧ Ev.rotate (-700) ∈ l) ∨
       (3 ≤ count0 w ∧ f1 = 1 ∧ Ev.rotate 700 ∈ l)) := by
  intro ls' sys' l h hr
  have hnud : ∀ (mr1 : Sys) (evs1 : List Ev),
      stepFinish fz false w ⟨w, f1, ff, none, r2⟩ mr1 evs1 = .next ls' sys' l → False := by
    intro mr1 evs1 hfin
    have hsf := stepFinish_next fz w ⟨w, f1, ff, none, r2⟩ mr1 evs1 ls' sys' l hfin
    have hr1 : ls'.result1 = none := hsf.2.2.1
    rw [hr1] at hr
    simp at hr
  unfold stepBranch at h
  simp only [] at h
  split at h
  case isTrue hA =>
    split at h
    · simp at h
    · split at h
      · simp at h
      · split at h
        · simp at h
        · rename_i v heq hrot
          have hsf := stepFinish_next fz w ⟨window2, 2, ff, some v, none⟩ _ _ ls' sys' l h
          have hne0 : w ≠ [0, 0, 0, 0, 0] := by
            intro he; rw [he] at hA; exact absurd hA.1 (by decide)
          have hne1 : w ≠ [1, 1, 1, 1, 1] := by
            intro he
            have hle := hb1 hA.2
            rw [he] at hle; exact absurd hle (by decide)
          have hfst : ls'.first = 2 := by
            have hx := hsf.2.2.2.2.1
            rw [if_neg hne0, if_neg hne1] at hx
            exact hx
          have hl := hsf.2.2.2.2.2.2
          refine ⟨hfst, hsf.1, Or.inl ⟨hA.1, hA.2, ?_⟩⟩
          have hmem : Ev.rotate (-700) ∈
              evs ++ (stepMove a sys MoveMode.resetBackward).2.1 ++
                (precisionRotate a (stepMove a sys MoveMode.resetBackward).1 (-700)).2.1 :=
            List.mem_append_right _ (rotate_marker_mem a _ (-700))
          rw [hl]
          split
          · exact hmem
          · exact List.mem_append_left _ hmem
  case isFalse hA =>
    split at h
    case isTrue hB =>
      split at h
      · simp at h
      · split at h
        · simp at h
        · split at h
          · simp at h
          · rename_i v heq hrot
            have hsf := stepFinish_next fz w ⟨window2, 2, ff, some v, none⟩ _ _ ls' sys' l h
            have hne0 : w ≠ [0, 0, 0, 0, 0] := by
              intro he
              have hle := hb0 hB.2
              rw [he] at hle; exact absurd hle (by decide)
            have hne1 : w ≠ [1, 1, 1, 1, 1] := by
              intro he; rw [he] at hB; exact absurd hB.1 (by decide)
            have hfst : ls'.first = 2 := by
              have hx := hsf.2.2.2.2.1
              rw [if_neg hne0, if_neg hne1] at hx
              exact hx
            have hl := hsf.2.2.2.2.2.2
            refine ⟨hfst, hsf.1, Or.inr ⟨hB.1, hB.2, ?_⟩⟩
            have hmem : Ev.rotate 700 ∈
                evs ++ (stepMove a sys MoveMode.resetForward).2.1 ++
                  (precisionRotate a (stepMove a sys MoveMode.resetForward).1 700).2.1 :=
              List.mem_append_right _ (rotate_marker_mem a _ 700)
            rw [hl]
            split
            · exact hmem
            · exact List.mem_append_left _ hmem
    case isFalse hB =>
      split at h
      · split at h
        · simp at h
        · exact absurd h (fun hh => hnud _ _ hh)
      · split at h
        · simp at h
        · exact absurd h (fun hh => hnud _ _ hh)

theorem count_w2pr_le (pr : Nat) :
    count1 (window2.tail ++ [pr]) ≤ 1 ∧ count0 (window2.tail ++ [pr]) ≤ 1 := by
  by_cases h1 : pr = 1
  · subst h1; exact ⟨by decide, by decide⟩
  · by_cases h0 : pr = 0
    · subst h0; exact ⟨by decide, by decide⟩
    · constructor <;>
        simp [count1, count0, window2, List.count_cons, List.count_append, h1, h0]

/-! ### C4: ordering and reset discipline of the two boundary recordings -/

/-- C4: along any trace of the bracket-search loop started from the fresh
cycle state, (1) an iteration can only terminate the loop recording
`boundary2` (`result2`) when `boundary1` (`result1`) is already recorded in
the state reached by the earlier iterations of that run, and (2) the
iteration that records `boundary1` leaves the reference phase reset to
unknown (`first = 2`), the prediction window cleared to all-unknowns, and
has issued an offsetting coarse rotation: `precision_rotate (-700)` when the
boundary was met while `first = 0` (the reset-backward side), and
`precision_rotate 700` when it was met while `first = 1` (the reset-forward
side) — 700 steps in the direction opposite to the offsetting reset nudge,
so the transition is re-approached from the other side. -/
theorem bracket_second_boundary_order (a : Nat → Bool) (fz isama : Bool) (sys0 : Sys)
    (envs : List SEnv) (e : SEnv) (p : LoopSt × Sys)
    (hp : loopSteps a fz isama envs (cycleInit, sys0) = p) :
    (∀ (ls' : LoopSt) (sys' : Sys) (l : List Ev),
        stepBody a fz isama e p.1 p.2 = .brk ls' sys' l →
        p.1.result1.isSome ∧ ls'.result2.isSome) ∧
    (∀ (ls' : LoopSt) (sys' : Sys) (l : List Ev),
        stepBody a fz isama e p.1 p.2 = .next ls' sys' l →
        p.1.result1 = none → ls'.result1.isSome →
        ls'.first = 2 ∧ ls'.preds = window2 ∧
        ((p.1.first = 0 ∧ Ev.rotate (-700) ∈ l) ∨
         (p.1.first = 1 ∧ Ev.rotate 700 ∈ l))) := by
  have hJ : Jinv p.1 := by
    rw [← hp]
    refine Jinv_loopSteps a fz isama envs (cycleInit, sys0) ?_
    exact ⟨fun _ => rfl, fun hf => by simp [cycleInit] at hf,
      fun hf => by simp [cycleInit] at hf⟩
  constructor
  · intro ls' sys' l h
    unfold stepBody at h
    split at h
    · simp at h
    · split at h
      · simp at h
      · split at h
        · simp at h
        · split at h
          · simp at h
          · rename_i p2 hpred
            simp only [] at h
            by_cases hff : p.1.firstFirst = 2
            · rw [if_pos hff] at h
              by_cases hrf :
                  (if p2 ^^^ (if isama then 1 else 0) = 0 then precisionRotate a p.2 746
                    else precisionRotate a p.2 (-746)).2.2 = false
              · rw [if_pos hrf] at h
                exact absurd h (by simp)
              · rw [if_neg hrf] at h
                exact stepBranch_brk a fz _ _ _ _ _ _ _ ls' sys' l h
            · rw [if_neg hff] at h
              exact stepBranch_brk a fz _ _ _ _ _ _ _ ls' sys' l h
  · intro ls' sys' l h hr1 hr1'
    have hb1g : ∀ x : Nat, (if p.1.first = 2 then x else p.1.first) = 0 →
        count1 (p.1.preds.tail ++ [x]) ≤ 3 := by
      intro x hf
      by_cases h2 : p.1.first = 2
      · rw [if_pos h2] at hf
        rw [hJ.1 h2, hf]
        decide
      · rw [if_neg h2] at hf
        have hc := hJ.2.1 hf
        have hd := (count_tail_append_le p.1.preds x).1
        omega
    have hb0g : ∀ x : Nat, (if p.1.first = 2 then x else p.1.first) = 1 →
        count0 (p.1.preds.tail ++ [x]) ≤ 3 := by
      intro x hf
      by_cases h2 : p.1.first = 2
      · rw [if_pos h2] at hf
        rw [hJ.1 h2, hf]
        decide
      · rw [if_neg h2] at hf
        have hc := hJ.2.2 hf
        have hd := (count_tail_append_le p.1.preds x).2
        omega
    have hconvg : ∀ (x : Nat) (lev : List Ev),
        ((3 ≤ count1 (p.1.preds.tail ++ [x]) ∧
          (if p.1.first = 2 then x else p.1.first) = 0 ∧ Ev.rotate (-700) ∈ lev) ∨
         (3 ≤ count0 (p.1.preds.tail ++ [x]) ∧
          (if p.1.first = 2 then x else p.1.first) = 1 ∧ Ev.rotate 700 ∈ lev)) →
        ((p.1.first = 0 ∧ Ev.rotate (-700) ∈ lev) ∨
         (p.1.first = 1 ∧ Ev.rotate 700 ∈ lev)) := by
      intro x lev hd
      rcases hd with ⟨hc1, hf1, hmem⟩ | ⟨hc0, hf1, hmem⟩
      · left
        refine ⟨?_, hmem⟩
        by_cases h2 : p.1.first = 2
        · exfalso
          rw [hJ.1 h2] at hc1
          have := (count_w2pr_le x).1
          omega
        · rw [if_neg h2] at hf1; exact hf1
      · right
        refine ⟨?_, hmem⟩
        by_cases h2 : p.1.first = 2
        · exfalso
          rw [hJ.1 h2] at hc0
          have := (count_w2pr_le x).2
          omega
        · rw [if_neg h2] at hf1; exact hf1
    unfold stepBody at h
    split at h
    · simp at h
    · split at h
      · simp at h
      · split at h
        · simp at h
        · split at h
          · cases h
            rw [hr1] at hr1'
            simp at hr1'
          · rename_i p2 hpred
            simp only [] at h
            rw [hr1] at h
            by_cases hff : p.1.firstFirst = 2
            · rw [if_pos hff] at h
              by_cases hrf :
                  (if p2 ^^^ (if isama then 1 else 0) = 0 then precisionRotate a p.2 746
                    else precisionRotate a p.2 (-746)).2.2 = false
              · rw [if_pos hrf] at h
                exact absurd h (by simp)
              · rw [if_neg hrf] at h
                have hrec := stepBranch_record a fz _ _ _ _ _ _
                  (hb1g _) (hb0g _) ls' sys' l h hr1'
                exact ⟨hrec.1, hrec.2.1, hconvg _ l hrec.2.2⟩
            · rw [if_neg hff] at h
              have hrec := stepBranch_record a fz _ _ _ _ _ _
                (hb1g _) (hb0g _) ls' sys' l h hr1'
              exact ⟨hrec.1, hrec.2.1, hconvg _ l hrec.2.2⟩

/-- The all-success acknowledgment oracle. -/
def aT : Nat → Bool := fun _ => true

/-- Environment of one ordinary loop iteration delivering classification `x`. -/
def envP (x : Nat) : SEnv := ⟨false, true, some x⟩

/-- Loop state projection of a step result. -/
def StepRes.lsOf : StepRes → LoopSt
  | .next ls _ _ => ls
  | .brk ls _ _ => ls
  | .err _ _ => cycleInit
  | .fatal _ _ => cycleInit

/-- System state projection of a step result. -/
def StepRes.sysOf : StepRes → Sys
  | .next _ sys _ => sys
  | .brk _ sys _ => sys
  | .err sys _ => sys
  | .fatal sys _ => sys

/-- Event list projection of a step result. -/
def StepRes.evsOf : StepRes → List Ev
  | .next _ _ l => l
  | .brk _ _ l => l
  | .err _ l => l
  | .fatal _ l => l

/-- State after three iterations with labels 0,1,1: one more 1 records the
first boundary. -/
def witTrace : LoopSt × Sys :=
  loopSteps aT false false [envP 0, envP 1, envP 1] (cycleInit, sysW)

/-- The boundary-1-recording step of the concrete run. -/
def witStep : StepRes := stepBody aT false false (envP 1) witTrace.1 witTrace.2

/-- State after seven iterations with labels 0,1,1,1,1,0,0: one more 0
records the second boundary and breaks. -/
def witTrace2 : LoopSt × Sys :=
  loopSteps aT false false
    [envP 0, envP 1, envP 1, envP 1, envP 1, envP 0, envP 0] (cycleInit, sysW)

/-- The boundary-2-recording step of the concrete run. -/
def witStep2 : StepRes := stepBody aT false false (envP 0) witTrace2.1 witTrace2.2

theorem bracket_second_boundary_order_witness :
    witStep = .next witStep.lsOf witStep.sysOf witStep.evsOf ∧
    witStep.lsOf.first = 2 ∧ witStep.lsOf.preds = window2 ∧
    Ev.rotate (-700) ∈ witStep.evsOf ∧
    witStep2 = .brk witStep2.lsOf witStep2.sysOf witStep2.evsOf ∧
    witTrace2.1.result1.isSome ∧ witStep2.lsOf.result2.isSome := by
  have heq : witStep = .next witStep.lsOf witStep.sysOf witStep.evsOf := rfl
  have h3 := (bracket_second_boundary_order aT false false sysW
      [envP 0, envP 1, envP 1] (envP 1) witTrace rfl).2 witStep.lsOf witStep.sysOf
      witStep.evsOf heq (by decide) (by decide)
  have heq2 : witStep2 = .brk witStep2.lsOf witStep2.sysOf witStep2.evsOf := rfl
  have h4 := (bracket_second_boundary_order aT false false sysW
      [envP 0, envP 1, envP 1, envP 1, envP 1, envP 0, envP 0] (envP 0) witTrace2 rfl).1
      witStep2.lsOf witStep2.sysOf witStep2.evsOf heq2
  have hfirst : witTrace.1.first = 0 := by decide
  rcases h3.2.2 with ⟨-, hm⟩ | ⟨hb, -⟩
  · exact ⟨heq, h3.1, h3.2.1, hm, heq2, h4.1, h4.2⟩
  · rw [hfirst] at hb; exact absurd hb (by decide)

theorem stepBranch_evs_head (a : Nat → Bool) (fz : Bool) (w : List Nat) (f1 ff : Nat)
    (r1 r2 : Option Int) (sys : Sys) (x : Ev) (evs : List Ev) :
    (stepBranch a fz w f1 ff r1 r2 sys (x :: evs)).evsOf.head? = some x := by
  unfold stepBranch stepFinish
  simp only []
  repeat' split
  all_goals rfl

/-! ### C10: the undocumented initial one-degree offset rotation -/

/-- C10: in every bracket-search cycle, the iteration that performs the very
first successful classification of the cycle (starting from the fresh cycle
state, where `first_first` is still unknown) begins its externally visible
activity with a coarse rotation call of +746 steps when the (XOR-adjusted)
label is 0 and -746 steps when it is 1: the rotate marker is the head of the
iteration's event list, so it precedes every nudge command of the same
iteration. -/
theorem initial_offset_rotation (a : Nat → Bool) (fz isama : Bool) (e : SEnv) (sys : Sys)
    (p : Nat) (ht : e.timedOut = false) (hc : sys.st.camera = true) (hfr : e.frameOk = true)
    (hp : e.pred = some p) :
    (stepBody a fz isama e cycleInit sys).evsOf.head? =
      some (Ev.rotate (if p ^^^ (if isama then 1 else 0) = 0 then 746 else -746)) := by
  have h1 : (e.timedOut = true) = False := by simp [ht]
  have h2 : (sys.st.camera = false) = False := by simp [hc]
  have h3 : (e.frameOk = false) = False := by simp [hfr]
  unfold stepBody
  simp only [h1, h2, h3, if_false, hp]
  by_cases hp0 : p ^^^ (if isama then 1 else 0) = 0
  · simp only [if_pos hp0]
    obtain ⟨rest, hcons⟩ : ∃ rest,
        (precisionRotate a sys 746).2.1 = Ev.rotate 746 :: rest := ⟨_, rfl⟩
    by_cases hrf : (precisionRotate a sys 746).2.2 = false
    · simp only [if_pos hrf, StepRes.evsOf, hcons]
      rfl
    · simp only [if_neg hrf, hcons]
      exact stepBranch_evs_head a fz _ _ _ _ _ _ _ rest
  · simp only [if_neg hp0]
    obtain ⟨rest, hcons⟩ : ∃ rest,
        (precisionRotate a sys (-746)).2.1 = Ev.rotate (-746) :: rest := ⟨_, rfl⟩
    by_cases hrf : (precisionRotate a sys (-746)).2.2 = false
    · simp only [if_pos hrf, StepRes.evsOf, hcons]
      rfl
    · simp only [if_neg hrf, hcons]
      exact stepBranch_evs_head a fz _ _ _ _ _ _ _ rest

theorem initial_offset_rotation_witness :
    (stepBody aT false false (envP 0) cycleInit sysW).evsOf.head? =
      some (Ev.rotate 746) := by
  have h := initial_offset_rotation aT false false (envP 0) sysW 0 rfl rfl rfl rfl
  simpa using h

/-! ### The full static_measurement function -/

/-- Result of a whole loop / cycle / run: normal completion, error return,
panic, or environment trace exhausted while still running. -/
inductive CycRes where
  | okc
  | errc
  | fatalc
  | morec
deriving DecidableEq

/-- The bracket-search loop (measurement.rs lines 329-451) over an
environment trace, accumulating the produced events. -/
def runLoop (a : Nat → Bool) (fz isama : Bool) : List SEnv → LoopSt → Sys →
    (LoopSt × Sys × List Ev) × CycRes
  | [], ls, sys => ((ls, sys, []), .morec)
  | e :: es, ls, sys =>
    match stepBody a fz isama e ls sys with
    | .next ls' sys' l =>
      let r := runLoop a fz isama es ls' sys'
      ((r.1.1, r.1.2.1, l ++ r.1.2.2), r.2)
    | .brk ls' sys' l => ((ls', sys', l), .okc)
    | .err sys' l => ((ls, sys', l), .errc)
    | .fatal sys' l => ((ls, sys', l), .fatalc)

/-- Rust f64 `round` of `x / 2` for an integer `x` (exact for these
magnitudes): round half away from zero. -/
def roundHalf (x : Int) : Int := x.sign * (((x.natAbs + 1) / 2 : Nat) : Int)

/-- Environment of one bracket-search cycle: the cancellation check at the
cycle head plus the per-iteration environments. -/
structure CycleEnv where
  cancelAtStart : Bool
  iters : List SEnv
deriving DecidableEq

/-- One cycle of `static_measurement` (measurement.rs lines 303-475):
cancellation check, window/phase initialisation (with the provisional
`current_steps = Some 0` of a zero-calibration run), the bracket-search
loop, and on both boundaries found the averaging rotation to
`round((b1+b2)/2)` followed (for a measurement run) by appending a
`StaticResult`. -/
def runCycle (a : Nat → Bool) (fz : Bool) (cenv : CycleEnv) (sys : Sys) :
    Sys × List Ev × CycRes :=
  if cenv.cancelAtStart then (sys, [Ev.staticStatus], .errc)
  else
    let sys0 : Sys :=
      if fz then {sys with st := {sys.st with currentSteps := some 0}} else sys
    match runLoop a fz sys0.st.isAma cenv.iters cycleInit sys0 with
    | ((ls, sys1, l), .okc) =>
      match ls.result1, ls.result2 with
      | some b1, some b2 =>
        match sys1.st.currentSteps with
        | none => (sys1, l, .fatalc)
        | some c =>
          let rr := precisionRotate a sys1 (roundHalf (b1 + b2) - c)
          if rr.2.2 = false then (rr.1, l ++ rr.2.1, .errc)
          else if fz then (rr.1, l ++ rr.2.1, .okc)
          else
            match rr.1.st.currentSteps with
            | none => (rr.1, l ++ rr.2.1, .fatalc)
            | some v =>
              let res : StaticResult :=
                ⟨rr.1.st.staticResults.length + 1, v, (v : ℚ) / 746⟩
              let st2 := {rr.1.st with staticResults := rr.1.st.staticResults ++ [res]}
              ({rr.1 with st := st2},
                l ++ rr.2.1 ++ [Ev.staticResultsUpd st2.staticResults], .okc)
      | _, _ => (sys1, l, .errc)
    | ((_, sys1, l), .errc) => (sys1, l, .errc)
    | ((_, sys1, l), .fatalc) => (sys1, l, .fatalc)
    | ((_, sys1, l), .morec) => (sys1, l, .morec)

/-- The `for i in 0..times` loop over cycles; a failing cycle aborts the
run. -/
def runCycles (a : Nat → Bool) (fz : Bool) : Nat → List CycleEnv → Sys →
    Sys × List Ev × CycRes
  | 0, _, sys => (sys, [], .okc)
  | _ + 1, [], sys => (sys, [], .morec)
  | n + 1, c :: cs, sys =>
    match runCycle a fz c sys with
    | (sys', l, .okc) =>
      let r := runCycles a fz n cs sys'
      (r.1, l ++ r.2.1, r.2.2)
    | (sys', l, r) => (sys', l, r)

/-- measurement.rs `static_measurement`: synchronous precondition checks
(model/camera/serial present, no static or dynamic task token), token
registration, the cycle loop, and the completion wrapper (lines 478-495)
that fixes `current_steps` for zero-calibration runs, emits the final
position, clears the token and emits the stopped flag.  A panicking run
(`fatalc`) never reaches the wrapper; an exhausted trace (`morec`) models a
still-running loop. -/
def staticMeasurement (a : Nat → Bool) (sys : Sys) (fz : Bool) (times : Int)
    (cenvs : List CycleEnv) : Sys × List Ev × CycRes :=
  if sys.st.fittedModel = false ∨ sys.st.camera = false ∨ sys.st.serial = false then
    (sys, [Ev.generalError, Ev.staticRunning false], .errc)
  else if sys.st.dynamicToken = true ∨ sys.st.staticToken = true then
    (sys, [Ev.generalError, Ev.staticRunning false], .errc)
  else
    let sysA : Sys := {sys with st := {sys.st with staticToken := true}}
    let r := runCycles a fz times.toNat cenvs sysA
    match r.2.2 with
    | .okc =>
      let stB := if fz then {r.1.st with currentSteps := some 0} else r.1.st
      let stC := {stB with staticToken := false}
      (⟨stC, r.1.ack⟩,
        Ev.staticRunning true :: r.2.1 ++
          [Ev.currentSteps stC.currentSteps, Ev.staticRunning false], .okc)
    | .errc =>
      let stB := if fz then {r.1.st with currentSteps := none} else r.1.st
      let stC := {stB with staticToken := false}
      (⟨stC, r.1.ack⟩,
        Ev.staticRunning true :: r.2.1 ++
          [Ev.currentSteps stC.currentSteps, Ev.staticRunning false], .errc)
    | .fatalc => (r.1, Ev.staticRunning true :: r.2.1, .fatalc)
    | .morec => (r.1, Ev.staticRunning true :: r.2.1, .morec)

/-! ### Serial-handle preservation under an all-success oracle -/

theorem stepBranch_allTrue_serial (a : Nat → Bool) (h : ∀ i, a i = true) (fz : Bool)
    (w : List Nat) (f1 ff : Nat) (r1 r2 : Option Int) (sys : Sys) (evs : List Ev)
    (hs : sys.st.serial = true) :
    (stepBranch a fz w f1 ff r1 r2 sys evs).sysOf.st.serial = true := by
  have hmr : ∀ m : MoveMode, (stepMove a sys m).1.st.serial = true := by
    intro m
    rw [eraseSteps_serial (stepMove_allTrue a h sys m hs).2.2]
    exact hs
  have hmrok : ∀ m : MoveMode, (stepMove a sys m).2.2 = true :=
    fun m => (stepMove_allTrue a h sys m hs).1
  have hrr : ∀ (m : MoveMode) (n : Int),
      (precisionRotate a (stepMove a sys m).1 n).1.st.serial = true := by
    intro m n
    rw [eraseSteps_serial (precisionRotate_allTrue a h (stepMove a sys m).1 n (hmr m)).2.2]
    exact hmr m
  have hrrok : ∀ (m : MoveMode) (n : Int),
      (precisionRotate a (stepMove a sys m).1 n).2.2 = true :=
    fun m n => (precisionRotate_allTrue a h (stepMove a sys m).1 n (hmr m)).1
  unfold stepBranch stepFinish
  simp only []
  repeat' split
  all_goals simp_all [StepRes.sysOf]

theorem stepBody_allTrue_serial (a : Nat → Bool) (h : ∀ i, a i = true) (fz isama : Bool)
    (e : SEnv) (ls : LoopSt) (sys : Sys) (hs : sys.st.serial = true) :
    (stepBody a fz isama e ls sys).sysOf.st.serial = true := by
  unfold stepBody
  simp only []
  split
  · exact hs
  · split
    · exact hs
    · split
      · exact hs
      · split
        · exact hs
        · rename_i p2 hpred
          split
          · by_cases hp0 : p2 ^^^ (if isama then 1 else 0) = 0
            · rw [if_pos hp0]
              have hser746 : (precisionRotate a sys 746).1.st.serial = true := by
                rw [eraseSteps_serial (precisionRotate_allTrue a h sys 746 hs).2.2]
                exact hs
              have hrok := (precisionRotate_allTrue a h sys 746 hs).1
              rw [if_neg (by simp [hrok])]
              exact stepBranch_allTrue_serial a h fz _ _ _ _ _ _ _ hser746
            · rw [if_neg hp0]
              have hserm : (precisionRotate a sys (-746)).1.st.serial = true := by
                rw [eraseSteps_serial (precisionRotate_allTrue a h sys (-746) hs).2.2]
                exact hs
              have hrok := (precisionRotate_allTrue a h sys (-746) hs).1
              rw [if_neg (by simp [hrok])]
              exact stepBranch_allTrue_serial a h fz _ _ _ _ _ _ _ hserm
          · exact stepBranch_allTrue_serial a h fz _ _ _ _ _ _ _ hs

theorem runLoop_allTrue_serial (a : Nat → Bool) (h : ∀ i, a i = true) (fz isama : Bool) :
    ∀ (envs : List SEnv) (ls : LoopSt) (sys : Sys), sys.st.serial = true →
      (runLoop a fz isama envs ls sys).1.2.1.st.serial = true := by
  intro envs
  induction envs with
  | nil => intro ls sys hs; exact hs
  | cons e es ih =>
    intro ls sys hs
    rcases hstep : stepBody a fz isama e ls sys with
      ⟨ls2, sys2, l2⟩ | ⟨ls2, sys2, l2⟩ | ⟨sys2, l2⟩ | ⟨sys2, l2⟩ <;>
      (have hser2 : sys2.st.serial = true := by
        have hb := stepBody_allTrue_serial a h fz isama e ls sys hs
        rw [hstep] at hb
        exact hb)
    · have hrw : runLoop a fz isama (e :: es) ls sys =
          (((runLoop a fz isama es ls2 sys2).1.1, (runLoop a fz isama es ls2 sys2).1.2.1,
            l2 ++ (runLoop a fz isama es ls2 sys2).1.2.2),
            (runLoop a fz isama es ls2 sys2).2) := by
        simp only [runLoop, hstep]
      rw [hrw]
      exact ih ls2 sys2 hser2
    · have hrw : runLoop a fz isama (e :: es) ls sys = ((ls2, sys2, l2), .okc) := by
        simp only [runLoop, hstep]
      rw [hrw]
      exact hser2
    · have hrw : runLoop a fz isama (e :: es) ls sys = ((ls, sys2, l2), .errc) := by
        simp only [runLoop, hstep]
      rw [hrw]
      exact hser2
    · have hrw : runLoop a fz isama (e :: es) ls sys = ((ls, sys2, l2), .fatalc) := by
        simp only [runLoop, hstep]
      rw [hrw]
      exact hser2

/-! ### C7: synchronous precondition rejection of static_measurement -/

/-- C7: whenever `static_measurement` is invoked with the classifier model,
camera, or serial port absent, or with a static or dynamic task token
already registered, it rejects synchronously: the state (including
StepPosition, the result lists and the task tokens) is returned completely
unchanged, exactly one error update plus the not-running flag are emitted,
and the call returns an error. -/
theorem static_precondition_reject (a : Nat → Bool) (sys : Sys) (fz : Bool) (times : Int)
    (cenvs : List CycleEnv)
    (hviol : sys.st.fittedModel = false ∨ sys.st.camera = false ∨ sys.st.serial = false ∨
      sys.st.staticToken = true ∨ sys.st.dynamicToken = true) :
    staticMeasurement a sys fz times cenvs =
      (sys, [Ev.generalError, Ev.staticRunning false], .errc) := by
  unfold staticMeasurement
  by_cases h1 : sys.st.fittedModel = false ∨ sys.st.camera = false ∨ sys.st.serial = false
  · rw [if_pos h1]
  · rw [if_neg h1]
    have h2 : sys.st.dynamicToken = true ∨ sys.st.staticToken = true := by
      rcases hviol with h | h | h | h | h
      · exact absurd (Or.inl h) h1
      · exact absurd (Or.inr (Or.inl h)) h1
      · exact absurd (Or.inr (Or.inr h)) h1
      · exact Or.inr h
      · exact Or.inl h
    rw [if_pos h2]

/-- Backend state with a dynamic-measurement token already registered. -/
def sysD : Sys := ⟨{sysW.st with dynamicToken := true}, 0⟩

theorem static_precondition_reject_witness :
    staticMeasurement aT sysD false 1 [] =
      (sysD, [Ev.generalError, Ev.staticRunning false], .errc) :=
  static_precondition_reject aT sysD false 1 []
    (Or.inr (Or.inr (Or.inr (Or.inr rfl))))

/-! ### C5: outcome of a zero-calibration run -/

/-- C5: a zero-calibration run (`find_zero = true`) whose preconditions pass
finishes with `current_steps = Some 0` when it completes successfully and
with `current_steps = None` when it fails for any reason (cancellation,
timeout, camera loss, motor failure, or a failed bracket); in both cases the
final CurrentSteps update is emitted and the static task token is cleared. -/
theorem static_findzero_outcome (a : Nat → Bool) (sys : Sys) (times : Int)
    (cenvs : List CycleEnv)
    (hm : sys.st.fittedModel = true) (hc : sys.st.camera = true)
    (hs : sys.st.serial = true)
    (ht1 : sys.st.staticToken = false) (ht2 : sys.st.dynamicToken = false) :
    ((staticMeasurement a sys true times cenvs).2.2 = .okc →
      (staticMeasurement a sys true times cenvs).1.st.currentSteps = some 0) ∧
    ((staticMeasurement a sys true times cenvs).2.2 = .errc →
      (staticMeasurement a sys true times cenvs).1.st.currentSteps = none) ∧
    ((staticMeasurement a sys true times cenvs).2.2 = .okc ∨
        (staticMeasurement a sys true times cenvs).2.2 = .errc →
      (staticMeasurement a sys true times cenvs).1.st.staticToken = false ∧
      Ev.currentSteps (staticMeasurement a sys true times cenvs).1.st.currentSteps ∈
        (staticMeasurement a sys true times cenvs).2.1) := by
  have hn1 : ¬(sys.st.fittedModel = false ∨ sys.st.camera = false ∨
      sys.st.serial = false) := by simp [hm, hc, hs]
  have hn2 : ¬(sys.st.dynamicToken = true ∨ sys.st.staticToken = true) := by
    simp [ht1, ht2]
  rcases hcase : (runCycles a true times.toNat cenvs
      ({sys with st := {sys.st with staticToken := true}})).2.2 with _ | _ | _ | _
  · have hsm : staticMeasurement a sys true times cenvs =
        (⟨{(runCycles a true times.toNat cenvs
              ({sys with st := {sys.st with staticToken := true}})).1.st with
            currentSteps := some 0, staticToken := false},
          (runCycles a true times.toNat cenvs
            ({sys with st := {sys.st with staticToken := true}})).1.ack⟩,
          Ev.staticRunning true :: (runCycles a true times.toNat cenvs
            ({sys with st := {sys.st with staticToken := true}})).2.1 ++
            [Ev.currentSteps (some 0), Ev.staticRunning false], .okc) := by
      unfold staticMeasurement
      rw [if_neg hn1, if_neg hn2]
      simp only []
      rw [hcase]
      rfl
    rw [hsm]
    refine ⟨fun _ => rfl, fun hco => by simp at hco, fun _ => ⟨rfl, by simp⟩⟩
  · have hsm : staticMeasurement a sys true times cenvs =
        (⟨{(runCycles a true times.toNat cenvs
              ({sys with st := {sys.st with staticToken := true}})).1.st with
            currentSteps := none, staticToken := false},
          (runCycles a true times.toNat cenvs
            ({sys with st := {sys.st with staticToken := true}})).1.ack⟩,
          Ev.staticRunning true :: (runCycles a true times.toNat cenvs
            ({sys with st := {sys.st with staticToken := true}})).2.1 ++
            [Ev.currentSteps none, Ev.staticRunning false], .errc) := by
      unfold staticMeasurement
      rw [if_neg hn1, if_neg hn2]
      simp only []
      rw [hcase]
      rfl
    rw [hsm]
    refine ⟨fun hco => by simp at hco, fun _ => rfl, fun _ => ⟨rfl, by simp⟩⟩
  · have hsm : (staticMeasurement a sys true times cenvs).2.2 = .fatalc := by
      unfold staticMeasurement
      rw [if_neg hn1, if_neg hn2]
      simp only []
      rw [hcase]
    refine ⟨fun hco => ?_, fun hco => ?_, fun hco => ?_⟩ <;> rw [hsm] at hco
    · simp at hco
    · simp at hco
    · rcases hco with hco | hco <;> simp at hco
  · have hsm : (staticMeasurement a sys true times cenvs).2.2 = .morec := by
      unfold staticMeasurement
      rw [if_neg hn1, if_neg hn2]
      simp only []
      rw [hcase]
    refine ⟨fun hco => ?_, fun hco => ?_, fun hco => ?_⟩ <;> rw [hsm] at hco
    · simp at hco
    · simp at hco
    · rcases hco with hco | hco <;> simp at hco

theorem static_findzero_outcome_witness :
    (staticMeasurement aT sysW true 1 [⟨true, []⟩]).2.2 = .errc ∧
    (staticMeasurement aT sysW true 1 [⟨true, []⟩]).1.st.currentSteps = none ∧
    (staticMeasurement aT sysW true 1 [⟨true, []⟩]).1.st.staticToken = false ∧
    Ev.currentSteps none ∈ (staticMeasurement aT sysW true 1 [⟨true, []⟩]).2.1 := by
  have h := static_findzero_outcome aT sysW 1 [⟨true, []⟩] rfl rfl rfl rfl rfl
  have he : (staticMeasurement aT sysW true 1 [⟨true, []⟩]).2.2 = .errc := by decide
  obtain ⟨h3a, h3b⟩ := h.2.2 (Or.inr he)
  have hnn := h.2.1 he
  refine ⟨he, hnn, h3a, ?_⟩
  rw [hnn] at h3b
  exact h3b

/-! ### C6: a successful measurement cycle averages the boundaries and
appends a StaticResult -/

/-- C6: in a static-measurement cycle (`find_zero = false`) in which the
bracket-search loop finds both boundaries `b1`, `b2` and every motor
command succeeds, the cycle rotates the motor so that `current_steps`
becomes exactly `round((b1+b2)/2)` (f64 rounding, half away from zero) and
appends a `StaticResult` whose index is the previous result count plus one,
whose steps field is the now-current position, and whose angle is that
position divided by 746. -/
theorem static_result_append (a : Nat → Bool) (h : ∀ i, a i = true)
    (cenv : CycleEnv) (sys : Sys) (b1 b2 c : Int)
    (ls : LoopSt) (sys1 : Sys) (l : List Ev)
    (hser : sys.st.serial = true)
    (hcancel : cenv.cancelAtStart = false)
    (hloop : runLoop a false sys.st.isAma cenv.iters cycleInit sys = ((ls, sys1, l), .okc))
    (hb1 : ls.result1 = some b1) (hb2 : ls.result2 = some b2)
    (hcur : sys1.st.currentSteps = some c) :
    (runCycle a false cenv sys).2.2 = .okc ∧
    (runCycle a false cenv sys).1.st.currentSteps = some (roundHalf (b1 + b2)) ∧
    (runCycle a false cenv sys).1.st.staticResults =
      sys1.st.staticResults ++
        [⟨sys1.st.staticResults.length + 1, roundHalf (b1 + b2),
          ((roundHalf (b1 + b2) : Int) : ℚ) / 746⟩] := by
  have hser1 : sys1.st.serial = true := by
    have hx := runLoop_allTrue_serial a h false sys.st.isAma cenv.iters cycleInit sys hser
    rw [hloop] at hx
    exact hx
  obtain ⟨hrok, hrcs, hrerase⟩ :=
    precisionRotate_allTrue a h sys1 (roundHalf (b1 + b2) - c) hser1
  have hcs' : (precisionRotate a sys1 (roundHalf (b1 + b2) - c)).1.st.currentSteps =
      some (roundHalf (b1 + b2)) := by
    rw [hrcs, hcur]
    simp only [Option.map_some', Option.some.injEq]
    ring
  have hres' : (precisionRotate a sys1 (roundHalf (b1 + b2) - c)).1.st.staticResults =
      sys1.st.staticResults := eraseSteps_staticResults hrerase
  have hred : runCycle a false cenv sys =
      ({(precisionRotate a sys1 (roundHalf (b1 + b2) - c)).1 with st :=
          {(precisionRotate a sys1 (roundHalf (b1 + b2) - c)).1.st with staticResults :=
            (precisionRotate a sys1 (roundHalf (b1 + b2) - c)).1.st.staticResults ++
              [⟨(precisionRotate a sys1 (roundHalf (b1 + b2) - c)).1.st.staticResults.length
                  + 1,
                roundHalf (b1 + b2), ((roundHalf (b1 + b2) : Int) : ℚ) / 746⟩]}},
        l ++ (precisionRotate a sys1 (roundHalf (b1 + b2) - c)).2.1 ++
          [Ev.staticResultsUpd
            ((precisionRotate a sys1 (roundHalf (b1 + b2) - c)).1.st.staticResults ++
              [⟨(precisionRotate a sys1 (roundHalf (b1 + b2) - c)).1.st.staticResults.length
                  + 1,
                roundHalf (b1 + b2), ((roundHalf (b1 + b2) : Int) : ℚ) / 746⟩])],
        .okc) := by
    unfold runCycle
    rw [if_neg (by simp [hcancel])]
    simp only [Bool.false_eq_true, if_false]
    rw [hloop]
    simp only []
    rw [hb1, hb2, hcur]
    simp only []
    rw [if_neg (by simp [hrok])]
    rw [hcs']
  rw [hred]
  refine ⟨rfl, ?_, ?_⟩
  · show (precisionRotate a sys1 (roundHalf (b1 + b2) - c)).1.st.currentSteps =
      some (roundHalf (b1 + b2))
    exact hcs'
  · show (precisionRotate a sys1 (roundHalf (b1 + b2) - c)).1.st.staticResults ++ _ = _
    rw [hres']

/-- Environment trace of a full successful measurement cycle: approach to
the first boundary with labels 0,1,1,1, re-approach with 1,0,0,0. -/
def witCycleEnvs : List SEnv :=
  [envP 0, envP 1, envP 1, envP 1, envP 1, envP 0, envP 0, envP 0]

theorem static_result_append_witness :
    (runCycle aT false ⟨false, witCycleEnvs⟩ sysW).2.2 = .okc ∧
    (runCycle aT false ⟨false, witCycleEnvs⟩ sysW).1.st.currentSteps = some 393 ∧
    (runCycle aT false ⟨false, witCycleEnvs⟩ sysW).1.st.staticResults =
      [⟨1, 393, (393 : ℚ) / 746⟩] := by
  have h := static_result_append aT (fun _ => rfl) ⟨false, witCycleEnvs⟩ sysW
    740 46 46
    (runLoop aT false sysW.st.isAma witCycleEnvs cycleInit sysW).1.1
    (runLoop aT false sysW.st.isAma witCycleEnvs cycleInit sysW).1.2.1
    (runLoop aT false sysW.st.isAma witCycleEnvs cycleInit sysW).1.2.2
    rfl rfl rfl (by decide) (by decide) (by decide)
  have hr : roundHalf (740 + 46) = 393 := by decide
  refine ⟨h.1, ?_, ?_⟩
  · rw [h.2.1, hr]
  · have hS : (runLoop aT false sysW.st.isAma witCycleEnvs
        cycleInit sysW).1.2.1.st.staticResults = [] := by decide
    rw [h.2.2, hS, hr]
    norm_num

/-! ### C8: the monitor worker's heartbeat -/

/-- Per-tick environment of the monitor: whether the camera pipeline still
has a latest frame. -/
structure MonEnv where
  frameOk : Bool
deriving DecidableEq

/-- One iteration of the monitor loop (mod.rs lines 196-254): if the serial
handle is absent, report the disconnect and invalidate `current_steps`;
otherwise on every 10th tick send the heartbeat byte 77 and discard the
acknowledgment result (`let _ = cmd(port, 77)`); then check the camera: an
absent handle or an empty frame slot clears the camera handle and reports a
camera disconnect. -/
def monitorStep (a : Nat → Bool) (times : Nat) (e : MonEnv) (sys : Sys) : Sys × List Ev :=
  let r1 : Sys × List Ev :=
    if sys.st.serial = false then
      ({sys with st := {sys.st with currentSteps := none}},
        [Ev.serialStatus false, Ev.currentSteps none])
    else if times % 10 = 0 then
      ({sys with ack := sys.ack + 1}, [Ev.port 77])
    else (sys, [])
  let r2 : Sys × List Ev :=
    if r1.1.st.camera = false then (r1.1, [Ev.cameraStatus false])
    else if e.frameOk = false then
      ({r1.1 with st := {r1.1.st with camera := false}}, [Ev.cameraStatus false])
    else (r1.1, [])
  (r2.1, r1.2 ++ r2.2)

/-- Counterexample to C8 as stated: with the serial handle present, a tick
divisible by 10, and the heartbeat acknowledgment failing (the oracle
returns false for every read), the monitor neither clears the serial handle
nor emits a serial-disconnect notification — the acknowledgment result of
the heartbeat is discarded. -/
theorem monitor_heartbeat_cex :
    (monitorStep (fun _ => false) 10 ⟨true⟩ sysW).1.st.serial = true ∧
    Ev.serialStatus false ∉ (monitorStep (fun _ => false) 10 ⟨true⟩ sysW).2 ∧
    (monitorStep (fun _ => false) 10 ⟨true⟩ sysW).2 = [Ev.port 77] := by
  decide

/-- C8 (amended): on every monitor tick with the serial port present and the
tick counter divisible by 10, the heartbeat byte 77 is sent, but the
acknowledgment outcome is discarded: whatever the oracle answers, the
serial handle stays present, `current_steps` is untouched, and no
serial-status update is emitted during the tick (serial disconnects are
only reported on ticks that already find the handle absent). -/
theorem monitor_heartbeat_amended (a : Nat → Bool) (times : Nat) (e : MonEnv) (sys : Sys)
    (hs : sys.st.serial = true) (ht : times % 10 = 0) :
    Ev.port 77 ∈ (monitorStep a times e sys).2 ∧
    (monitorStep a times e sys).1.st.serial = sys.st.serial ∧
    (monitorStep a times e sys).1.st.currentSteps = sys.st.currentSteps ∧
    ∀ b, Ev.serialStatus b ∉ (monitorStep a times e sys).2 := by
  have hsf : (sys.st.serial = false) = False := by simp [hs]
  unfold monitorStep
  simp only [hsf, if_false, ht, eq_self_iff_true, if_true]
  by_cases hc : sys.st.camera = false
  · rw [if_pos hc]
    exact ⟨by simp, rfl, rfl, by intro b; simp⟩
  · rw [if_neg hc]
    by_cases hf : e.frameOk = false
    · rw [if_pos hf]
      exact ⟨by simp, rfl, rfl, by intro b; simp⟩
    · rw [if_neg hf]
      exact ⟨by simp, rfl, rfl, by intro b; simp⟩

theorem monitor_heartbeat_amended_witness :
    Ev.port 77 ∈ (monitorStep aT 20 ⟨true⟩ sysW).2 ∧
    (monitorStep aT 20 ⟨true⟩ sysW).1.st.serial = sysW.st.serial ∧
    (monitorStep aT 20 ⟨true⟩ sysW).1.st.currentSteps = sysW.st.currentSteps ∧
    ∀ b, Ev.serialStatus b ∉ (monitorStep aT 20 ⟨true⟩ sysW).2 :=
  monitor_heartbeat_amended aT 20 ⟨true⟩ sysW rfl rfl

/-! ### Pre-rotation and the dynamic experiment loop -/

/-- Local state of the pre-rotation / dynamic loops: window and reference
phase. -/
structure PreSt where
  preds : List Nat
  first : Nat
deriving DecidableEq

/-- Result of one pre-rotation iteration. -/
inductive PreRes where
  | next (ps : PreSt) (sys : Sys) (evs : List Ev)
  | okbrk (sys : Sys) (evs : List Ev)
  | errp (sys : Sys) (evs : List Ev)
deriving DecidableEq

/-- Branch part of the `pre_rotation` loop body: stop with a reset nudge at
the first consensus flip, otherwise nudge once and adopt a uniform window. -/
def preRotBranch (a : Nat → Bool) (w : List Nat) (f1 : Nat) (sys : Sys) : PreRes :=
  if 3 ≤ count1 w ∧ f1 = 0 then
    if (stepMove a sys .resetBackward).2.2 = false then
      .errp (stepMove a sys .resetBackward).1
        (Ev.dynamicStatus :: (stepMove a sys .resetBackward).2.1)
    else .okbrk (stepMove a sys .resetBackward).1
      (Ev.dynamicStatus :: (stepMove a sys .resetBackward).2.1 ++
        [Ev.currentSteps (stepMove a sys .resetBackward).1.st.currentSteps])
  else if 3 ≤ count0 w ∧ f1 = 1 then
    if (stepMove a sys .resetForward).2.2 = false then
      .errp (stepMove a sys .resetForward).1
        (Ev.dynamicStatus :: (stepMove a sys .resetForward).2.1)
    else .okbrk (stepMove a sys .resetForward).1
      (Ev.dynamicStatus :: (stepMove a sys .resetForward).2.1 ++
        [Ev.currentSteps (stepMove a sys .resetForward).1.st.currentSteps])
  else if f1 = 1 then
    if (stepMove a sys .stepForward).2.2 = false then
      .errp (stepMove a sys .stepForward).1
        (Ev.dynamicStatus :: (stepMove a sys .stepForward).2.1)
    else
      .next ⟨w, if w = [0, 0, 0, 0, 0] then 0 else if w = [1, 1, 1, 1, 1] then 1 else f1⟩
        (stepMove a sys .stepForward).1
        (Ev.dynamicStatus :: (stepMove a sys .stepForward).2.1 ++
          [Ev.currentSteps (stepMove a sys .stepForward).1.st.currentSteps])
  else
    if (stepMove a sys .stepBackward).2.2 = false then
      .errp (stepMove a sys .stepBackward).1
        (Ev.dynamicStatus :: (stepMove a sys .stepBackward).2.1)
    else
      .next ⟨w, if w = [0, 0, 0, 0, 0] then 0 else if w = [1, 1, 1, 1, 1] then 1 else f1⟩
        (stepMove a sys .stepBackward).1
        (Ev.dynamicStatus :: (stepMove a sys .stepBackward).2.1 ++
          [Ev.currentSteps (stepMove a sys .stepBackward).1.st.currentSteps])

/-- One iteration of `pre_rotation` (measurement.rs lines 531-626): like the
bracket-search body but stopping at the first consensus flip, emitting a
DynamicStatus line per classification and the position after every nudge. -/
def preRotStep (a : Nat → Bool) (isama : Bool) (e : SEnv) (ps : PreSt) (sys : Sys) :
    PreRes :=
  if e.timedOut then .errp sys []
  else if sys.st.camera = false then .errp sys [Ev.dynamicStatus, Ev.cameraStatus false]
  else if e.frameOk = false then
    .errp sys [Ev.dynamicStatus, Ev.cameraStatus false,
      Ev.currentSteps sys.st.currentSteps]
  else
    match e.pred with
    | none => .next ps sys []
    | some p =>
      preRotBranch a (ps.preds.tail ++ [p ^^^ (if isama then 1 else 0)])
        (if ps.first = 2 then p ^^^ (if isama then 1 else 0) else ps.first) sys

/-- The pre-rotation loop over an environment trace. -/
def preRunLoop (a : Nat → Bool) (isama : Bool) : List SEnv → PreSt → Sys →
    Sys × List Ev × CycRes
  | [], _, sys => (sys, [], .morec)
  | e :: es, ps, sys =>
    match preRotStep a isama e ps sys with
    | .next ps' sys' l =>
      let r := preRunLoop a isama es ps' sys'
      (r.1, l ++ r.2.1, r.2.2)
    | .okbrk sys' l => (sys', l, .okc)
    | .errp sys' l => (sys', l, .errc)

/-- measurement.rs `pre_rotation`: precondition check, the nudge loop until
the first consensus flip, and a trailing CurrentSteps update on every
finished (non-exhausted) path. -/
def preRotation (a : Nat → Bool) (sys : Sys) (envs : List SEnv) :
    Sys × List Ev × CycRes :=
  let r :=
    if sys.st.fittedModel = false ∨ sys.st.camera = false ∨ sys.st.serial = false then
      (sys, ([] : List Ev), CycRes.errc)
    else preRunLoop a sys.st.isAma envs ⟨window2, 2⟩ sys
  match r.2.2 with
  | .morec => r
  | _ => (r.1, r.2.1 ++ [Ev.currentSteps r.1.st.currentSteps], r.2.2)

/-- Per-iteration environment of the dynamic loop: the cancellation flag,
the 2000 s timeout flag, frame availability, the classification, and the
elapsed experiment time recorded with a result. -/
structure DEnv where
  cancelled : Bool
  timedOut : Bool
  frameOk : Bool
  pred : Option Nat
  time : ℚ
deriving DecidableEq

/-- Result of one dynamic-loop iteration. -/
inductive DynRes where
  | next (ps : PreSt) (sys : Sys) (evs : List Ev)
  | stop (sys : Sys)
  | errd (sys : Sys) (evs : List Ev)
  | fatald (sys : Sys) (evs : List Ev)
deriving DecidableEq

/-- Rust `as usize` on an i32 value (sign-extended, reinterpreted as a
64-bit unsigned). -/
def usizeCast (v : Int) : Nat := (v % ((2 : Int) ^ 64)).toNat

/-- One iteration of the dynamic experiment loop (measurement.rs lines
713-810): termination check at the head (cancellation, sample count
reached, 2000 s timeout), camera checks, classification (continue on
failure), phase adoption before the window push, and on a consensus flip:
append a DynamicResult, emit it, persist it (save marker), rotate by the
configured step angle and reset window and phase. -/
def dynStep (a : Nat → Bool) (isama : Bool) (e : DEnv) (ps : PreSt) (sys : Sys) : DynRes :=
  if e.cancelled ∨ usizeCast sys.st.samplePoints ≤ sys.st.dynamicResults.length ∨
      e.timedOut then
    .stop sys
  else if sys.st.camera = false then
    .errd sys [Ev.currentSteps sys.st.currentSteps, Ev.cameraStatus false]
  else if e.frameOk = false then
    .errd {sys with st := {sys.st with camera := false}}
      [Ev.currentSteps sys.st.currentSteps, Ev.cameraStatus false]
  else
    match e.pred with
    | none => .next ps sys []
    | some p =>
      let pr := p ^^^ (if isama then 1 else 0)
      let f1 := if ps.first = 2 then pr else ps.first
      let w := ps.preds.tail ++ [pr]
      if (3 ≤ count1 w ∧ f1 = 0) ∨ (3 ≤ count0 w ∧ f1 = 1) then
        match sys.st.currentSteps with
        | none => .fatald sys []
        | some v =>
          let res : DynamicResult :=
            ⟨sys.st.dynamicResults.length + 1, e.time, v, (v : ℚ) / 746⟩
          let st1 := {sys.st with dynamicResults := sys.st.dynamicResults ++ [res]}
          let sys1 : Sys := ⟨st1, sys.ack⟩
          let rr := precisionRotate a sys1 st1.stepSteps
          if rr.2.2 = false then
            .errd rr.1 ([Ev.dynamicResultsUpd st1.dynamicResults, Ev.saveDyn] ++ rr.2.1)
          else
            .next ⟨window2, 2⟩ rr.1
              ([Ev.dynamicResultsUpd st1.dynamicResults, Ev.saveDyn] ++ rr.2.1)
      else .next ⟨w, f1⟩ sys []

/-- The dynamic measurement loop over an environment trace. -/
def runDynLoop (a : Nat → Bool) (isama : Bool) : List DEnv → PreSt → Sys →
    Sys × List Ev × CycRes
  | [], _, sys => (sys, [], .morec)
  | e :: es, ps, sys =>
    match dynStep a isama e ps sys with
    | .next ps' sys' l =>
      let r := runDynLoop a isama es ps' sys'
      (r.1, l ++ r.2.1, r.2.2)
    | .stop sys' => (sys', [], .okc)
    | .errd sys' l => (sys', l, .errc)
    | .fatald sys' l => (sys', l, .fatalc)

/-- Epilogue of `run_dynamic_experiment_loop` (measurement.rs lines 812-836),
run on every non-panicking termination path: emit the result list, clear the
dynamic token, emit the position and the stopped flag, then call
absolute-rotate-to-0; a failure of that final call becomes the overall
result. -/
def dynEpilogue (a : Nat → Bool) (inner : Sys × List Ev × CycRes) :
    Sys × List Ev × CycRes :=
  match inner.2.2 with
  | .morec => (inner.1, Ev.dynamicRunning true :: inner.2.1, .morec)
  | .fatalc => (inner.1, Ev.dynamicRunning true :: inner.2.1, .fatalc)
  | r =>
    ((precisionRotateTo a ⟨{inner.1.st with dynamicToken := false}, inner.1.ack⟩ 0).1,
      Ev.dynamicRunning true :: inner.2.1 ++
        [Ev.dynamicResultsUpd inner.1.st.dynamicResults,
          Ev.currentSteps inner.1.st.currentSteps, Ev.dynamicRunning false] ++
        (precisionRotateTo a ⟨{inner.1.st with dynamicToken := false},
          inner.1.ack⟩ 0).2.1,
      if (precisionRotateTo a ⟨{inner.1.st with dynamicToken := false},
          inner.1.ack⟩ 0).2.2 = false then CycRes.errc else r)

/-- measurement.rs `run_dynamic_experiment_loop`: synchronous precondition
checks (devices/model, a calibrated StepPosition, a started experiment
clock, no other task), token registration, pre-rotation followed by the
initial coarse rotation and the measurement loop, then the epilogue
(lines 812-836): emit results, clear the token, emit position and stopped
flag, and call absolute-rotate-to-0, whose failure becomes the call's
result. -/
def runDynamicExperimentLoop (a : Nat → Bool) (sys : Sys) (preEnvs : List SEnv)
    (dynEnvs : List DEnv) : Sys × List Ev × CycRes :=
  if sys.st.fittedModel = false ∨ sys.st.camera = false ∨ sys.st.serial = false then
    (sys, [Ev.generalError, Ev.dynamicRunning false], .errc)
  else if sys.st.currentSteps = none then
    (sys, [Ev.generalError, Ev.dynamicRunning false], .errc)
  else if sys.st.dynamicTime = false then
    (sys, [Ev.generalError, Ev.dynamicRunning false], .errc)
  else if sys.st.dynamicToken = true ∨ sys.st.staticToken = true then
    (sys, [Ev.generalError, Ev.dynamicRunning false], .errc)
  else
    let sysA : Sys := {sys with st := {sys.st with dynamicToken := true}}
    let inner : Sys × List Ev × CycRes :=
      match preRotation a sysA preEnvs with
      | (s1, l1, CycRes.okc) =>
        let rr := precisionRotate a s1 s1.st.stepSteps
        if rr.2.2 = false then (rr.1, l1 ++ rr.2.1, .errc)
        else
          let r2 := runDynLoop a sysA.st.isAma dynEnvs ⟨window2, 2⟩ rr.1
          (r2.1, l1 ++ rr.2.1 ++ r2.2.1, r2.2.2)
      | (s1, l1, r) => (s1, l1, r)
    dynEpilogue a inner

/-- System state projection of a pre-rotation step result. -/
def PreRes.sysOf : PreRes → Sys
  | .next _ sys _ => sys
  | .okbrk sys _ => sys
  | .errp sys _ => sys

/-- System state projection of a dynamic step result. -/
def DynRes.sysOf : DynRes → Sys
  | .next _ sys _ => sys
  | .stop sys => sys
  | .errd sys _ => sys
  | .fatald sys _ => sys

theorem preRotStep_alive (a : Nat → Bool) (h : ∀ i, a i = true) (isama : Bool) (e : SEnv)
    (ps : PreSt) (sys : Sys) (hs : sys.st.serial = true)
    (hcs : sys.st.currentSteps.isSome = true) :
    (preRotStep a isama e ps sys).sysOf.st.serial = true ∧
    (preRotStep a isama e ps sys).sysOf.st.currentSteps.isSome = true := by
  have hmr : ∀ m : MoveMode, (stepMove a sys m).1.st.serial = true := by
    intro m
    rw [eraseSteps_serial (stepMove_allTrue a h sys m hs).2.2]
    exact hs
  have hmrok : ∀ m : MoveMode, (stepMove a sys m).2.2 = true :=
    fun m => (stepMove_allTrue a h sys m hs).1
  have hmrs : ∀ m : MoveMode, (stepMove a sys m).1.st.currentSteps.isSome = true := by
    intro m
    rw [(stepMove_allTrue a h sys m hs).2.1]
    cases hx : sys.st.currentSteps
    · rw [hx] at hcs; simp at hcs
    · rfl
  have hbr : ∀ (w : List Nat) (f1 : Nat),
      (preRotBranch a w f1 sys).sysOf.st.serial = true ∧
      (preRotBranch a w f1 sys).sysOf.st.currentSteps.isSome = true := by
    intro w f1
    unfold preRotBranch
    repeat' split
    all_goals first | exact ⟨hs, hcs⟩ | exact ⟨hmr _, hmrs _⟩
  unfold preRotStep
  split
  · exact ⟨hs, hcs⟩
  · split
    · exact ⟨hs, hcs⟩
    · split
      · exact ⟨hs, hcs⟩
      · split
        · exact ⟨hs, hcs⟩
        · exact hbr _ _

theorem preRunLoop_alive (a : Nat → Bool) (h : ∀ i, a i = true) (isama : Bool) :
    ∀ (envs : List SEnv) (ps : PreSt) (sys : Sys), sys.st.serial = true →
      sys.st.currentSteps.isSome = true →
      (preRunLoop a isama envs ps sys).1.st.serial = true ∧
      (preRunLoop a isama envs ps sys).1.st.currentSteps.isSome = true := by
  intro envs
  induction envs with
  | nil => intro ps sys hs hcs; exact ⟨hs, hcs⟩
  | cons e es ih =>
    intro ps sys hs hcs
    rcases hstep : preRotStep a isama e ps sys with
      ⟨ps2, sys2, l2⟩ | ⟨sys2, l2⟩ | ⟨sys2, l2⟩ <;>
      (have halive : sys2.st.serial = true ∧ sys2.st.currentSteps.isSome = true := by
        have hb := preRotStep_alive a h isama e ps sys hs hcs
        rw [hstep] at hb
        exact hb)
    · have hrw : preRunLoop a isama (e :: es) ps sys =
          ((preRunLoop a isama es ps2 sys2).1,
            l2 ++ (preRunLoop a isama es ps2 sys2).2.1,
            (preRunLoop a isama es ps2 sys2).2.2) := by
        simp only [preRunLoop, hstep]
      rw [hrw]
      exact ih ps2 sys2 halive.1 halive.2
    · have hrw : preRunLoop a isama (e :: es) ps sys = (sys2, l2, .okc) := by
        simp only [preRunLoop, hstep]
      rw [hrw]
      exact halive
    · have hrw : preRunLoop a isama (e :: es) ps sys = (sys2, l2, .errc) := by
        simp only [preRunLoop, hstep]
      rw [hrw]
      exact halive

theorem dynStep_alive (a : Nat → Bool) (h : ∀ i, a i = true) (isama : Bool) (e : DEnv)
    (ps : PreSt) (sys : Sys) (hs : sys.st.serial = true)
    (hcs : sys.st.currentSteps.isSome = true) :
    (dynStep a isama e ps sys).sysOf.st.serial = true ∧
    (dynStep a isama e ps sys).sysOf.st.currentSteps.isSome = true := by
  have hrot : ∀ (res : DynamicResult),
      (precisionRotate a
          ⟨{sys.st with dynamicResults := sys.st.dynamicResults ++ [res]}, sys.ack⟩
          sys.st.stepSteps).2.2 = true ∧
      (precisionRotate a
          ⟨{sys.st with dynamicResults := sys.st.dynamicResults ++ [res]}, sys.ack⟩
          sys.st.stepSteps).1.st.serial = true ∧
      (precisionRotate a
          ⟨{sys.st with dynamicResults := sys.st.dynamicResults ++ [res]}, sys.ack⟩
          sys.st.stepSteps).1.st.currentSteps.isSome = true := by
    intro res
    obtain ⟨hok, hcs1, her⟩ := precisionRotate_allTrue a h
      ⟨{sys.st with dynamicResults := sys.st.dynamicResults ++ [res]}, sys.ack⟩
      sys.st.stepSteps hs
    refine ⟨hok, ?_, ?_⟩
    · rw [eraseSteps_serial her]; exact hs
    · rw [hcs1]
      cases hx : sys.st.currentSteps
      · rw [hx] at hcs; simp at hcs
      · rfl
  unfold dynStep
  simp only []
  repeat' split
  all_goals first | exact ⟨hs, hcs⟩ | exact ⟨(hrot _).2.1, (hrot _).2.2⟩

theorem runDynLoop_alive (a : Nat → Bool) (h : ∀ i, a i = true) (isama : Bool) :
    ∀ (envs : List DEnv) (ps : PreSt) (sys : Sys), sys.st.serial = true →
      sys.st.currentSteps.isSome = true →
      (runDynLoop a isama envs ps sys).1.st.serial = true ∧
      (runDynLoop a isama envs ps sys).1.st.currentSteps.isSome = true := by
  intro envs
  induction envs with
  | nil => intro ps sys hs hcs; exact ⟨hs, hcs⟩
  | cons e es ih =>
    intro ps sys hs hcs
    rcases hstep : dynStep a isama e ps sys with
      ⟨ps2, sys2, l2⟩ | ⟨sys2⟩ | ⟨sys2, l2⟩ | ⟨sys2, l2⟩ <;>
      (have halive : sys2.st.serial = true ∧ sys2.st.currentSteps.isSome = true := by
        have hb := dynStep_alive a h isama e ps sys hs hcs
        rw [hstep] at hb
        exact hb)
    · have hrw : runDynLoop a isama (e :: es) ps sys =
          ((runDynLoop a isama es ps2 sys2).1,
            l2 ++ (runDynLoop a isama es ps2 sys2).2.1,
            (runDynLoop a isama es ps2 sys2).2.2) := by
        simp only [runDynLoop, hstep]
      rw [hrw]
      exact ih ps2 sys2 halive.1 halive.2
    · have hrw : runDynLoop a isama (e :: es) ps sys = (sys2, [], .okc) := by
        simp only [runDynLoop, hstep]
      rw [hrw]
      exact halive
    · have hrw : runDynLoop a isama (e :: es) ps sys = (sys2, l2, .errc) := by
        simp only [runDynLoop, hstep]
      rw [hrw]
      exact halive
    · have hrw : runDynLoop a isama (e :: es) ps sys = (sys2, l2, .fatalc) := by
        simp only [runDynLoop, hstep]
      rw [hrw]
      exact halive

theorem eraseSteps_dynamicToken {s t : BackendSt} (h : eraseSteps s = eraseSteps t) :
    s.dynamicToken = t.dynamicToken := by
  have hh := congrArg BackendSt.dynamicToken h
  simpa [eraseSteps] using hh

theorem preRotation_sys (a : Nat → Bool) (sys : Sys) (envs : List SEnv) :
    (preRotation a sys envs).1 =
      (if sys.st.fittedModel = false ∨ sys.st.camera = false ∨ sys.st.serial = false then
        (sys, ([] : List Ev), CycRes.errc)
      else preRunLoop a sys.st.isAma envs ⟨window2, 2⟩ sys).1 := by
  unfold preRotation
  simp only []
  split <;> rfl

theorem preRotation_alive (a : Nat → Bool) (h : ∀ i, a i = true) (sys : Sys)
    (envs : List SEnv) (hs : sys.st.serial = true)
    (hcs : sys.st.currentSteps.isSome = true) :
    (preRotation a sys envs).1.st.serial = true ∧
    (preRotation a sys envs).1.st.currentSteps.isSome = true := by
  rw [preRotation_sys]
  by_cases hpre : sys.st.fittedModel = false ∨ sys.st.camera = false ∨
      sys.st.serial = false
  · rw [if_pos hpre]; exact ⟨hs, hcs⟩
  · rw [if_neg hpre]
    exact preRunLoop_alive a h sys.st.isAma envs ⟨window2, 2⟩ sys hs hcs

theorem precisionRotateTo_allTrue_zero (a : Nat → Bool) (h : ∀ i, a i = true) (sys : Sys)
    (s : Int) (hs : sys.st.serial = true) (hcs : sys.st.currentSteps = some s) :
    (precisionRotateTo a sys 0).2.2 = true ∧
    (precisionRotateTo a sys 0).1.st.currentSteps = some 0 ∧
    eraseSteps (precisionRotateTo a sys 0).1.st = eraseSteps sys.st ∧
    Ev.rotateTo 0 ∈ (precisionRotateTo a sys 0).2.1 := by
  obtain ⟨hok, hcs', her⟩ := precisionRotate_allTrue a h sys (0 - s) hs
  have hred : precisionRotateTo a sys 0 =
      ((precisionRotate a sys (0 - s)).1,
        Ev.rotateTo 0 :: (precisionRotate a sys (0 - s)).2.1,
        (precisionRotate a sys (0 - s)).2.2) := by
    unfold precisionRotateTo
    rw [hcs]
  rw [hred]
  refine ⟨hok, ?_, her, by simp⟩
  rw [hcs', hcs]
  simp only [Option.map_some', Option.some.injEq]
  ring

theorem dynStep_stop_iff (a : Nat → Bool) (isama : Bool) (e : DEnv) (ps : PreSt)
    (sys : Sys) :
    (∃ s', dynStep a isama e ps sys = DynRes.stop s') ↔
    (e.cancelled = true ∨
      usizeCast sys.st.samplePoints ≤ sys.st.dynamicResults.length ∨
      e.timedOut = true) := by
  constructor
  · rintro ⟨s', hs'⟩
    by_cases hcond : e.cancelled = true ∨
        usizeCast sys.st.samplePoints ≤ sys.st.dynamicResults.length ∨ e.timedOut = true
    · exact hcond
    · exfalso
      unfold dynStep at hs'
      rw [if_neg hcond] at hs'
      simp only [] at hs'
      repeat' split at hs'
      all_goals simp at hs'
  · intro hcond
    refine ⟨sys, ?_⟩
    unfold dynStep
    rw [if_pos hcond]

theorem dynEpilogue_ok (a : Nat → Bool) (h : ∀ i, a i = true)
    (inner : Sys × List Ev × CycRes)
    (hser : inner.1.st.serial = true) (hcs : inner.1.st.currentSteps.isSome = true)
    (htag : inner.2.2 = CycRes.okc ∨ inner.2.2 = CycRes.errc) :
    (dynEpilogue a inner).1.st.currentSteps = some 0 ∧
    (dynEpilogue a inner).1.st.dynamicToken = false ∧
    Ev.rotateTo 0 ∈ (dynEpilogue a inner).2.1 := by
  obtain ⟨sv, hsv⟩ := Option.isSome_iff_exists.mp hcs
  have hserC : (⟨{inner.1.st with dynamicToken := false}, inner.1.ack⟩ : Sys).st.serial
      = true := hser
  have hcsC : (⟨{inner.1.st with dynamicToken := false},
      inner.1.ack⟩ : Sys).st.currentSteps = some sv := hsv
  obtain ⟨hok, hst0, her, hmem⟩ := precisionRotateTo_allTrue_zero a h
    ⟨{inner.1.st with dynamicToken := false}, inner.1.ack⟩ sv hserC hcsC
  have htok : (precisionRotateTo a
      ⟨{inner.1.st with dynamicToken := false}, inner.1.ack⟩ 0).1.st.dynamicToken
      = false := by
    rw [eraseSteps_dynamicToken her]
  have hmain : ∀ r : CycRes,
      ((precisionRotateTo a ⟨{inner.1.st with dynamicToken := false},
          inner.1.ack⟩ 0).1,
        Ev.dynamicRunning true :: inner.2.1 ++
          [Ev.dynamicResultsUpd inner.1.st.dynamicResults,
            Ev.currentSteps inner.1.st.currentSteps, Ev.dynamicRunning false] ++
          (precisionRotateTo a ⟨{inner.1.st with dynamicToken := false},
            inner.1.ack⟩ 0).2.1,
        if (precisionRotateTo a ⟨{inner.1.st with dynamicToken := false},
            inner.1.ack⟩ 0).2.2 = false then CycRes.errc else r).1.st.currentSteps
          = some 0 ∧
      ((precisionRotateTo a ⟨{inner.1.st with dynamicToken := false},
          inner.1.ack⟩ 0).1,
        Ev.dynamicRunning true :: inner.2.1 ++
          [Ev.dynamicResultsUpd inner.1.st.dynamicResults,
            Ev.currentSteps inner.1.st.currentSteps, Ev.dynamicRunning false] ++
          (precisionRotateTo a ⟨{inner.1.st with dynamicToken := false},
            inner.1.ack⟩ 0).2.1,
        if (precisionRotateTo a ⟨{inner.1.st with dynamicToken := false},
            inner.1.ack⟩ 0).2.2 = false then CycRes.errc else r).1.st.dynamicToken
          = false ∧
      Ev.rotateTo 0 ∈
        ((precisionRotateTo a ⟨{inner.1.st with dynamicToken := false},
            inner.1.ack⟩ 0).1,
          Ev.dynamicRunning true :: inner.2.1 ++
            [Ev.dynamicResultsUpd inner.1.st.dynamicResults,
              Ev.currentSteps inner.1.st.currentSteps, Ev.dynamicRunning false] ++
            (precisionRotateTo a ⟨{inner.1.st with dynamicToken := false},
              inner.1.ack⟩ 0).2.1,
          if (precisionRotateTo a ⟨{inner.1.st with dynamicToken := false},
              inner.1.ack⟩ 0).2.2 = false then CycRes.errc else r).2.1 := by
    intro r
    exact ⟨hst0, htok, by simp [hmem]⟩
  rcases htag with htag | htag
  · have hred : dynEpilogue a inner =
        ((precisionRotateTo a ⟨{inner.1.st with dynamicToken := false},
            inner.1.ack⟩ 0).1,
          Ev.dynamicRunning true :: inner.2.1 ++
            [Ev.dynamicResultsUpd inner.1.st.dynamicResults,
              Ev.currentSteps inner.1.st.currentSteps, Ev.dynamicRunning false] ++
            (precisionRotateTo a ⟨{inner.1.st with dynamicToken := false},
              inner.1.ack⟩ 0).2.1,
          if (precisionRotateTo a ⟨{inner.1.st with dynamicToken := false},
              inner.1.ack⟩ 0).2.2 = false then CycRes.errc else CycRes.okc) := by
      unfold dynEpilogue
      rw [htag]
    rw [hred]
    exact hmain CycRes.okc
  · have hred : dynEpilogue a inner =
        ((precisionRotateTo a ⟨{inner.1.st with dynamicToken := false},
            inner.1.ack⟩ 0).1,
          Ev.dynamicRunning true :: inner.2.1 ++
            [Ev.dynamicResultsUpd inner.1.st.dynamicResults,
              Ev.currentSteps inner.1.st.currentSteps, Ev.dynamicRunning false] ++
            (precisionRotateTo a ⟨{inner.1.st with dynamicToken := false},
              inner.1.ack⟩ 0).2.1,
          if (precisionRotateTo a ⟨{inner.1.st with dynamicToken := false},
              inner.1.ack⟩ 0).2.2 = false then CycRes.errc else CycRes.errc) := by
      unfold dynEpilogue
      rw [htag]
    rw [hred]
    exact hmain CycRes.errc

/-! ### C9: dynamic loop termination and return-to-zero (corrected) -/

/-- C9 (amended): (1) the dynamic measurement loop stops normally exactly
when the cancellation token is set, the recorded-result count has reached
the configured `sample_points` (cast as in the source through `as usize`),
or the 2000 s timeout has elapsed — a hardware failure ends it with an
error instead; (2) on every non-panicking termination path of a run whose
preconditions passed, the epilogue calls absolute-rotate-to-0, and as long
as every motor command is acknowledged this returns StepPosition to
`Some 0` and clears the dynamic token, with the rotate-to-zero call marker
among the emitted events.  (When a motor failure has invalidated
StepPosition the rotate-to-0 call fails without issuing any command — see
the counterexample.) -/
theorem dynamic_loop_amended :
    (∀ (a : Nat → Bool) (isama : Bool) (e : DEnv) (ps : PreSt) (sys : Sys),
        (∃ s', dynStep a isama e ps sys = DynRes.stop s') ↔
        (e.cancelled = true ∨
          usizeCast sys.st.samplePoints ≤ sys.st.dynamicResults.length ∨
          e.timedOut = true)) ∧
    (∀ (a : Nat → Bool), (∀ i, a i = true) → ∀ (sys : Sys) (preEnvs : List SEnv)
        (dynEnvs : List DEnv) (c : Int),
        sys.st.fittedModel = true → sys.st.camera = true → sys.st.serial = true →
        sys.st.currentSteps = some c → sys.st.dynamicTime = true →
        sys.st.staticToken = false → sys.st.dynamicToken = false →
        ((runDynamicExperimentLoop a sys preEnvs dynEnvs).2.2 = CycRes.okc ∨
          (runDynamicExperimentLoop a sys preEnvs dynEnvs).2.2 = CycRes.errc) →
        (runDynamicExperimentLoop a sys preEnvs dynEnvs).1.st.currentSteps = some 0 ∧
        (runDynamicExperimentLoop a sys preEnvs dynEnvs).1.st.dynamicToken = false ∧
        Ev.rotateTo 0 ∈ (runDynamicExperimentLoop a sys preEnvs dynEnvs).2.1) := by
  constructor
  · exact dynStep_stop_iff
  · intro a h sys preEnvs dynEnvs c hm hc hsr hcs0 hdt hts htd hterm
    have hn1 : ¬(sys.st.fittedModel = false ∨ sys.st.camera = false ∨
        sys.st.serial = false) := by simp [hm, hc, hsr]
    have hn2 : ¬(sys.st.currentSteps = none) := by simp [hcs0]
    have hn3 : ¬(sys.st.dynamicTime = false) := by simp [hdt]
    have hn4 : ¬(sys.st.dynamicToken = true ∨ sys.st.staticToken = true) := by
      simp [hts, htd]
    rcases hpre : preRotation a {sys with st := {sys.st with dynamicToken := true}}
      preEnvs with ⟨s1, l1, tag⟩
    have halive1 : s1.st.serial = true ∧ s1.st.currentSteps.isSome = true := by
      have hx := preRotation_alive a h
        {sys with st := {sys.st with dynamicToken := true}} preEnvs hsr
        (by rw [show ({sys with st := {sys.st with dynamicToken := true}} :
            Sys).st.currentSteps = some c from hcs0]; rfl)
      rw [hpre] at hx
      exact hx
    cases tag with
    | okc =>
      obtain ⟨hrok, hrcs, hrer⟩ :=
        precisionRotate_allTrue a h s1 s1.st.stepSteps halive1.1
      have hralive : (precisionRotate a s1 s1.st.stepSteps).1.st.serial = true ∧
          (precisionRotate a s1 s1.st.stepSteps).1.st.currentSteps.isSome = true := by
        constructor
        · rw [eraseSteps_serial hrer]; exact halive1.1
        · rw [hrcs]
          obtain ⟨v, hv⟩ := Option.isSome_iff_exists.mp halive1.2
          rw [hv]; rfl
      have h2alive := runDynLoop_alive a h
        ({sys with st := {sys.st with dynamicToken := true}} : Sys).st.isAma dynEnvs
        ⟨window2, 2⟩ (precisionRotate a s1 s1.st.stepSteps).1 hralive.1 hralive.2
      have hred : runDynamicExperimentLoop a sys preEnvs dynEnvs =
          dynEpilogue a
            ((runDynLoop a
                ({sys with st := {sys.st with dynamicToken := true}} : Sys).st.isAma
                dynEnvs ⟨window2, 2⟩ (precisionRotate a s1 s1.st.stepSteps).1).1,
              l1 ++ (precisionRotate a s1 s1.st.stepSteps).2.1 ++
                (runDynLoop a
                  ({sys with st := {sys.st with dynamicToken := true}} : Sys).st.isAma
                  dynEnvs ⟨window2, 2⟩ (precisionRotate a s1 s1.st.stepSteps).1).2.1,
              (runDynLoop a
                ({sys with st := {sys.st with dynamicToken := true}} : Sys).st.isAma
                dynEnvs ⟨window2, 2⟩ (precisionRotate a s1 s1.st.stepSteps).1).2.2) := by
        unfold runDynamicExperimentLoop
        rw [if_neg hn1, if_neg hn2, if_neg hn3, if_neg hn4]
        simp only []
        rw [hpre]
        simp only []
        rw [if_neg (by simp [hrok])]
      rw [hred] at hterm ⊢
      refine dynEpilogue_ok a h _ h2alive.1 h2alive.2 ?_
      rcases hcase : (runDynLoop a
          ({sys with st := {sys.st with dynamicToken := true}} : Sys).st.isAma
          dynEnvs ⟨window2, 2⟩ (precisionRotate a s1 s1.st.stepSteps).1).2.2
        with _ | _ | _ | _
      · exact Or.inl rfl
      · exact Or.inr rfl
      · rw [hcase] at hterm
        rcases hterm with h' | h' <;> simp [dynEpilogue] at h'
      · rw [hcase] at hterm
        rcases hterm with h' | h' <;> simp [dynEpilogue] at h'
    | errc =>
      have hred : runDynamicExperimentLoop a sys preEnvs dynEnvs =
          dynEpilogue a (s1, l1, CycRes.errc) := by
        unfold runDynamicExperimentLoop
        rw [if_neg hn1, if_neg hn2, if_neg hn3, if_neg hn4]
        simp only []
        rw [hpre]
      rw [hred]
      exact dynEpilogue_ok a h _ halive1.1 halive1.2 (Or.inr rfl)
    | fatalc =>
      have hred : runDynamicExperimentLoop a sys preEnvs dynEnvs =
          dynEpilogue a (s1, l1, CycRes.fatalc) := by
        unfold runDynamicExperimentLoop
        rw [if_neg hn1, if_neg hn2, if_neg hn3, if_neg hn4]
        simp only []
        rw [hpre]
      rw [hred] at hterm
      rcases hterm with h' | h' <;> simp [dynEpilogue] at h'
    | morec =>
      have hred : runDynamicExperimentLoop a sys preEnvs dynEnvs =
          dynEpilogue a (s1, l1, CycRes.morec) := by
        unfold runDynamicExperimentLoop
        rw [if_neg hn1, if_neg hn2, if_neg hn3, if_neg hn4]
        simp only []
        rw [hpre]
      rw [hred] at hterm
      rcases hterm with h' | h' <;> simp [dynEpilogue] at h'

/-- Port-command events. -/
def Ev.isPort : Ev → Bool
  | .port _ => true
  | _ => false

/-- All-failure acknowledgment oracle. -/
def aF : Nat → Bool := fun _ => false

/-- C9 counterexample: when the first pre-rotation nudge is never
acknowledged, the task terminates with an error, StepPosition stays
invalidated (None, not Some 0), and although the epilogue still calls
absolute-rotate-to-0 (its marker is the last event), that call fails
immediately: the lone port byte ever written is the failed nudge, so the
rotator is NOT returned to step position zero. -/
theorem dynamic_return_zero_cex :
    (runDynamicExperimentLoop aF sysW [envP 1] []).2.2 = CycRes.errc ∧
    (runDynamicExperimentLoop aF sysW [envP 1] []).1.st.currentSteps = none ∧
    ((runDynamicExperimentLoop aF sysW [envP 1] []).2.1.filter Ev.isPort) =
      [Ev.port 51] ∧
    (runDynamicExperimentLoop aF sysW [envP 1] []).2.1.getLast? =
      some (Ev.rotateTo 0) := by
  decide

/-- Cancellation-at-start environment of the dynamic loop. -/
def dEnvCancel : DEnv := ⟨true, false, true, none, 0⟩

/-- Pre-rotation environment trace reaching the consensus flip. -/
def preEnvsW : List SEnv := [envP 0, envP 1, envP 1, envP 1]

/-- Dynamic-loop trace that cancels immediately. -/
def witDynEnvs : List DEnv := [dEnvCancel]

/-- Witness for C9 at concrete inputs: cancellation stops the loop, and a
fully acknowledged run ends at StepPosition Some 0 with the token cleared
and the rotate-to-0 marker emitted. -/
theorem dynamic_loop_amended_witness :
    ((∃ s', dynStep aT false dEnvCancel ⟨window2, 2⟩ sysW = DynRes.stop s') ↔
      (dEnvCancel.cancelled = true ∨
        usizeCast sysW.st.samplePoints ≤ sysW.st.dynamicResults.length ∨
        dEnvCancel.timedOut = true)) ∧
    ((runDynamicExperimentLoop aT sysW preEnvsW witDynEnvs).1.st.currentSteps =
        some 0 ∧
      (runDynamicExperimentLoop aT sysW preEnvsW witDynEnvs).1.st.dynamicToken =
        false ∧
      Ev.rotateTo 0 ∈ (runDynamicExperimentLoop aT sysW preEnvsW witDynEnvs).2.1) :=
  ⟨dynamic_loop_amended.1 aT false dEnvCancel ⟨window2, 2⟩ sysW,
    dynamic_loop_amended.2 aT (fun _ => rfl) sysW preEnvsW witDynEnvs 0
      rfl rfl rfl rfl rfl rfl rfl (Or.inl rfl)⟩
